import Mathlib

/-!
Verification of the parametric curve core (src/v3/src/paths/curves/Curve.js).

The abstract `Curve` class is generic over the point type it samples: the
geometric primitives (Vector2/Vector3, `distanceTo`, `clone().sub`,
`normalize`) are external collaborators required from `../../math`.  We embed
the class as a structure that carries the evaluator together with the point
operations the class calls, over an arbitrary linearly ordered field of
scalars (instantiated at `ℚ` for executable witnesses and at `ℝ` for the
Frenet-frame development).  The mutable per-instance fields
(`cacheArcLengths`, `needsUpdate`, `__arcLengthDivisions`) become an explicit
state record threaded through the operations, and `getLengths` additionally
reports how many times it invoked the evaluator `getPoint`.
-/

set_option linter.unusedSectionVars false
set_option linter.unusedVariables false

namespace PhaserCurve

/-- The abstract curve together with the point/vector operations the base
class requires from its point type: the evaluator `getPoint`, the metric
`distanceTo` used by the arc-length table, and the `clone().sub` /
`normalize` operations used by the numerical tangent fallback. -/
structure Curve (K : Type) (P : Type) where
  getPoint : K → P
  dist : P → P → K
  vsub : P → P → P
  vnormalize : P → P

/-- Mutable per-instance fields of a curve: the cached arc-length table
(`this.cacheArcLengths`, initially undefined), the dirty flag
(`this.needsUpdate`, initially undefined hence falsy), and the configured
resolution (`this.__arcLengthDivisions`, possibly unset). -/
structure CurveState (K : Type) where
  cacheArcLengths : Option (List K)
  needsUpdate : Bool
  arcLengthDivisions : Option ℕ

/-- State of a freshly constructed curve: all fields undefined. -/
def initState (K : Type) : CurveState K := ⟨none, false, none⟩

/-- JS `if (!divisions) { divisions = d }`: an omitted argument and an
argument of `0` are both falsy and replaced by the default. -/
def fallback (x : Option ℕ) (d : ℕ) : ℕ :=
  match x with
  | some n => if n = 0 then d else n
  | none => d

/-- The division count actually used by `getLengths`:
`divisions = divisions || (this.__arcLengthDivisions || 200)`. -/
def effectiveDivisions {K : Type} (s : CurveState K) (divisions : Option ℕ) : ℕ :=
  fallback divisions (fallback s.arcLengthDivisions 200)

variable {K : Type} [LinearOrderedField K] {P : Type}

/-- Distance accumulated by iteration `p+1` of the `getLengths` loop:
`current.distanceTo(last)` with `current = getPoint((p+1)/divisions)` and
`last = getPoint(p/divisions)`. -/
def segmentDist (c : Curve K P) (n : ℕ) (p : ℕ) : K :=
  c.dist (c.getPoint (((p : K) + 1) / (n : K))) (c.getPoint ((p : K) / (n : K)))

/-- Running value of `sum` after `p` iterations of the `getLengths` loop. -/
def cumDist (c : Curve K P) (n : ℕ) : ℕ → K
  | 0 => 0
  | p + 1 => cumDist c n p + segmentDist c n p

/-- The arc-length table built by the `getLengths` loop: entry `p` is the
cumulative distance over the first `p` uniform parameter steps. -/
def arcLengthTable (c : Curve K P) (n : ℕ) : List K :=
  (List.range (n + 1)).map (cumDist c n)

/-- Result of a `getLengths` call: the returned table, the updated instance
state, and the number of `this.getPoint` invocations it performed. -/
structure LengthsResult (K : Type) where
  table : List K
  state : CurveState K
  evalCalls : ℕ

/-- The rebuild path of `getLengths`: clear `needsUpdate`, sample
`divisions + 1` points, store and return the fresh table. -/
def rebuildLengths (c : Curve K P) (s : CurveState K) (divisions : ℕ) : LengthsResult K :=
  ⟨arcLengthTable c divisions,
   ⟨some (arcLengthTable c divisions), false, s.arcLengthDivisions⟩,
   divisions + 1⟩

/-- `Curve.getLengths(divisions)` (lines 108-142): return the cached table
when it exists, matches the requested resolution and the instance is not
dirty; otherwise rebuild. -/
def getLengths (c : Curve K P) (s : CurveState K) (divisions? : Option ℕ) : LengthsResult K :=
  let divisions := effectiveDivisions s divisions?
  match s.cacheArcLengths with
  | some cache =>
    if cache.length = divisions + 1 ∧ s.needsUpdate = false then
      ⟨cache, s, 0⟩
    else
      rebuildLengths c s divisions
  | none => rebuildLengths c s divisions

/-- `Curve.updateArcLengths()` (lines 144-149): set `needsUpdate` and
immediately call `getLengths()` with no argument. -/
def updateArcLengths (c : Curve K P) (s : CurveState K) : LengthsResult K :=
  getLengths c ⟨s.cacheArcLengths, true, s.arcLengthDivisions⟩ none

/-- The `while (low <= high)` binary search of `getUtoTmapping`
(lines 173-198), returning the value of `i` after the loop (which the code
sets to `high`; on the equality break the loop has just set `high = i`).
Indices are integers since `high` can reach `-1`. -/
def uSearch (table : List K) (target : K) (low high : ℤ) : ℤ :=
  if _h : low ≤ high then
    if table.getD ((low + high) / 2).toNat 0 < target then
      uSearch table target ((low + high) / 2 + 1) high
    else if target < table.getD ((low + high) / 2).toNat 0 then
      uSearch table target low ((low + high) / 2 - 1)
    else (low + high) / 2
  else high
termination_by (high + 1 - low).toNat
decreasing_by
  · omega
  · omega

/-- The pure tail of `getUtoTmapping` (lines 171-220): binary search the
table for the target arc length, then either return the exact grid parameter
or linearly interpolate inside the bracketing segment. -/
def mapTargetToT (arcLengths : List K) (targetArcLength : K) : K :=
  let il := arcLengths.length
  let i : ℤ := uSearch arcLengths targetArcLength 0 ((il : ℤ) - 1)
  if arcLengths.getD i.toNat 0 = targetArcLength then
    (i : K) / ((il : K) - 1)
  else
    let lengthBefore := arcLengths.getD i.toNat 0
    let lengthAfter := arcLengths.getD (i.toNat + 1) 0
    let segmentLength := lengthAfter - lengthBefore
    let segmentFraction := (targetArcLength - lengthBefore) / segmentLength
    ((i : K) + segmentFraction) / ((il : K) - 1)

/-- `Curve.getUtoTmapping(u, distance)` (lines 153-221).  `if (distance)` is
JS truthiness: a supplied distance of `0` is falsy and falls back to
`u * arcLengths[il - 1]`. -/
def getUtoTmapping (c : Curve K P) (s : CurveState K) (u : K) (distance : Option K) :
    K × CurveState K :=
  let r := getLengths c s none
  let targetArcLength : K :=
    match distance with
    | some d => if d = 0 then u * r.table.getD (r.table.length - 1) 0 else d
    | none => u * r.table.getD (r.table.length - 1) 0
  (mapTargetToT r.table targetArcLength, r.state)

/-- `Curve.getPointAt(u)` (lines 52-57). -/
def getPointAt (c : Curve K P) (s : CurveState K) (u : K) : P × CurveState K :=
  ((c.getPoint (getUtoTmapping c s u none).1), (getUtoTmapping c s u none).2)

/-- `Curve.getPoints(divisions)` (lines 61-76): `divisions + 1` samples at
uniform native parameter, with falsy division counts replaced by 5. -/
def getPoints (c : Curve K P) (divisions? : Option ℕ) : List P :=
  let divisions := fallback divisions? 5
  (List.range (divisions + 1)).map (fun d => c.getPoint ((d : K) / (divisions : K)))

/-- `Curve.getSpacedPoints(divisions)` (lines 80-95): `divisions + 1` samples
through `getPointAt`, threading the instance state through the calls. -/
def getSpacedPoints (c : Curve K P) (s : CurveState K) (divisions? : Option ℕ) :
    List P × CurveState K :=
  let divisions := fallback divisions? 5
  (List.range (divisions + 1)).foldl
    (fun (acc : List P × CurveState K) (d : ℕ) =>
      (acc.1 ++ [(getPointAt c acc.2 ((d : K) / (divisions : K))).1],
       (getPointAt c acc.2 ((d : K) / (divisions : K))).2))
    ([], s)

/-- `Curve.getTangent(t)` (lines 228-252): numerical fallback, sampling two
points `0.0001` apart with both parameters capped into `[0, 1]`, then
normalizing the difference `pt2.clone().sub(pt1)`. -/
def getTangent (c : Curve K P) (t : K) : P :=
  let delta : K := 1 / 10000
  let t1 := t - delta
  let t2 := t + delta
  let t1 := if t1 < 0 then 0 else t1
  let t2 := if 1 < t2 then 1 else t2
  c.vnormalize (c.vsub (c.getPoint t2) (c.getPoint t1))

/-- `Curve.getTangentAt(u)` (lines 254-259). -/
def getTangentAt (c : Curve K P) (s : CurveState K) (u : K) : P × CurveState K :=
  ((getTangent c (getUtoTmapping c s u none).1), (getUtoTmapping c s u none).2)

/-! ### Basic facts about the division-count defaulting and the table -/

theorem fallback_pos (x : Option ℕ) (d : ℕ) (hd : 0 < d) : 0 < fallback x d := by
  cases x with
  | none => simpa [fallback]
  | some n =>
    by_cases h : n = 0 <;> simp [fallback, h] <;> omega

theorem effectiveDivisions_pos (s : CurveState K) (d? : Option ℕ) :
    0 < effectiveDivisions s d? :=
  fallback_pos _ _ (fallback_pos _ _ (by norm_num))

theorem effectiveDivisions_some (s : CurveState K) (n : ℕ) (hn : n ≠ 0) :
    effectiveDivisions s (some n) = n := by
  simp [effectiveDivisions, fallback, hn]

theorem arcLengthTable_length (c : Curve K P) (n : ℕ) :
    (arcLengthTable c n).length = n + 1 := by
  simp [arcLengthTable]

theorem arcLengthTable_getD (c : Curve K P) (n j : ℕ) (hj : j < n + 1) :
    (arcLengthTable c n).getD j 0 = cumDist c n j := by
  rw [arcLengthTable, List.getD_eq_getElem?_getD, List.getElem?_map,
    List.getElem?_range hj]
  rfl

theorem cumDist_le_of_nonneg (c : Curve K P) (n : ℕ)
    (h : ∀ p < n, 0 ≤ segmentDist c n p) :
    ∀ j k, j ≤ k → k ≤ n → cumDist c n j ≤ cumDist c n k := by
  intro j k hjk hk
  induction k with
  | zero => simp_all
  | succ k ih =>
    rcases Nat.eq_or_lt_of_le hjk with rfl | hlt
    · exact le_refl _
    · have hj : cumDist c n j ≤ cumDist c n k := ih (by omega) (by omega)
      have : 0 ≤ segmentDist c n k := h k (by omega)
      calc cumDist c n j ≤ cumDist c n k := hj
        _ ≤ cumDist c n k + segmentDist c n k := by linarith
        _ = cumDist c n (k + 1) := rfl

theorem cumDist_lt_of_pos (c : Curve K P) (n : ℕ)
    (h : ∀ p < n, 0 < segmentDist c n p) :
    ∀ j k, j < k → k ≤ n → cumDist c n j < cumDist c n k := by
  intro j k hjk hk
  induction k with
  | zero => omega
  | succ k ih =>
    have hs : 0 < segmentDist c n k := h k (by omega)
    rcases Nat.lt_or_ge j k with hlt | hge
    · have := ih hlt (by omega)
      have : cumDist c n j < cumDist c n k + segmentDist c n k := by linarith
      exact this
    · have : j = k := by omega
      subst this
      show cumDist c n j < cumDist c n j + segmentDist c n j
      linarith

theorem cumDist_nonneg (c : Curve K P) (n : ℕ)
    (h : ∀ p < n, 0 ≤ segmentDist c n p) :
    ∀ k, k ≤ n → 0 ≤ cumDist c n k := by
  intro k hk
  have := cumDist_le_of_nonneg c n h 0 k (Nat.zero_le _) hk
  simpa [cumDist] using this

/-! ### Correctness of the binary search

`uSearch_spec` is the loop invariant of the `while (low <= high)` search:
everything strictly left of `low` is below the target, everything strictly
right of `high` is above it.  For a strictly increasing table containing at
least one entry `≤ target`, the loop result is the largest index whose entry
is `≤ target`. -/

theorem uSearch_spec (table : List K) (target : K)
    (hstrict : ∀ j k : ℕ, j < k → k < table.length →
      table.getD j 0 < table.getD k 0) :
    ∀ fuel : ℕ, ∀ low high : ℤ,
      (high + 1 - low).toNat ≤ fuel →
      0 ≤ low → low ≤ high + 1 → high < (table.length : ℤ) →
      (∀ j : ℕ, (j : ℤ) < low → table.getD j 0 < target) →
      (∀ j : ℕ, high < (j : ℤ) → j < table.length → target < table.getD j 0) →
      (∃ j0 : ℕ, j0 < table.length ∧ table.getD j0 0 ≤ target) →
      0 ≤ uSearch table target low high ∧
      uSearch table target low high < (table.length : ℤ) ∧
      table.getD (uSearch table target low high).toNat 0 ≤ target ∧
      (∀ j : ℕ, j < table.length → table.getD j 0 ≤ target →
        (j : ℤ) ≤ uSearch table target low high) := by
  intro fuel
  induction fuel with
  | zero =>
    intro low high hfuel h0 hlh hhl hleft hright hex
    have hnle : ¬ low ≤ high := by omega
    rw [uSearch, dif_neg hnle]
    have hhigh0 : 0 ≤ high := by
      by_contra hneg
      obtain ⟨j0, hj0len, hj0le⟩ := hex
      have : target < table.getD j0 0 := hright j0 (by omega) hj0len
      linarith
    refine ⟨hhigh0, hhl, ?_, ?_⟩
    · have : (high.toNat : ℤ) < low := by omega
      exact le_of_lt (hleft high.toNat this)
    · intro j hjlen hjle
      by_contra hjr
      have : target < table.getD j 0 := hright j (by omega) hjlen
      linarith
  | succ fuel ih =>
    intro low high hfuel h0 hlh hhl hleft hright hex
    by_cases hle : low ≤ high
    · rw [uSearch, dif_pos hle]
      have hmidlo : low ≤ (low + high) / 2 := by omega
      have hmidhi : (low + high) / 2 ≤ high := by omega
      have hmidnat : (((low + high) / 2).toNat : ℤ) = (low + high) / 2 := by omega
      have hmidlen : ((low + high) / 2).toNat < table.length := by omega
      by_cases hv : table.getD ((low + high) / 2).toNat 0 < target
      · rw [if_pos hv]
        refine ih ((low + high) / 2 + 1) high (by omega) (by omega) (by omega) hhl
          ?_ hright hex
        intro j hj
        rcases Nat.lt_or_ge j ((low + high) / 2).toNat with hjlt | hjge
        · calc table.getD j 0 < table.getD ((low + high) / 2).toNat 0 :=
              hstrict j _ hjlt hmidlen
            _ < target := hv
        · have : j = ((low + high) / 2).toNat := by omega
          subst this
          exact hv
      · rw [if_neg hv]
        by_cases hv2 : target < table.getD ((low + high) / 2).toNat 0
        · rw [if_pos hv2]
          refine ih low ((low + high) / 2 - 1) (by omega) h0 (by omega) (by omega)
            hleft ?_ hex
          intro j hj hjlen
          rcases Nat.lt_or_ge ((low + high) / 2).toNat j with hjgt | hjle2
          · calc target < table.getD ((low + high) / 2).toNat 0 := hv2
              _ < table.getD j 0 := hstrict _ j hjgt hjlen
          · have : j = ((low + high) / 2).toNat := by omega
            subst this
            exact hv2
        · rw [if_neg hv2]
          have heq : table.getD ((low + high) / 2).toNat 0 = target := le_antisymm
            (le_of_not_lt hv2) (le_of_not_lt hv)
          refine ⟨by omega, by omega, by rw [heq], ?_⟩
          intro j hjlen hjle
          by_contra hjgt
          have hgt : ((low + high) / 2).toNat < j := by omega
          have : table.getD ((low + high) / 2).toNat 0 < table.getD j 0 :=
            hstrict _ j hgt hjlen
          rw [heq] at this
          linarith
    · rw [uSearch, dif_neg hle]
      have hhigh0 : 0 ≤ high := by
        by_contra hneg
        obtain ⟨j0, hj0len, hj0le⟩ := hex
        have : target < table.getD j0 0 := hright j0 (by omega) hj0len
        linarith
      refine ⟨hhigh0, hhl, ?_, ?_⟩
      · have : (high.toNat : ℤ) < low := by omega
        exact le_of_lt (hleft high.toNat this)
      · intro j hjlen hjle
        by_contra hjr
        have : target < table.getD j 0 := hright j (by omega) hjlen
        linarith

/-! ### Cache behaviour of `getLengths` and `updateArcLengths` -/

theorem getLengths_cache_none (c : Curve K P) (s : CurveState K) (d? : Option ℕ)
    (hs : s.cacheArcLengths = none) :
    getLengths c s d? = rebuildLengths c s (effectiveDivisions s d?) := by
  simp only [getLengths, hs]

/-- After any `getLengths` call, an immediate second call with the same
division count is a pure cache hit: same table, same state, no evaluator
samples. -/
theorem getLengths_stable (c : Curve K P) (s : CurveState K) (d? : Option ℕ) :
    getLengths c (getLengths c s d?).state d? =
      ⟨(getLengths c s d?).table, (getLengths c s d?).state, 0⟩ := by
  obtain ⟨cache?, nu, ad⟩ := s
  cases cache? with
  | none =>
    simp [getLengths, rebuildLengths, effectiveDivisions, arcLengthTable_length]
  | some cache =>
    by_cases hcond : cache.length =
        effectiveDivisions (⟨some cache, nu, ad⟩ : CurveState K) d? + 1 ∧ nu = false
    · obtain ⟨hlen, hnu⟩ := hcond
      subst hnu
      simp [getLengths, hlen]
    · have h1 : getLengths c (⟨some cache, nu, ad⟩ : CurveState K) d? =
          rebuildLengths c ⟨some cache, nu, ad⟩
            (effectiveDivisions (⟨some cache, nu, ad⟩ : CurveState K) d?) := by
        simp only [getLengths]
        rw [if_neg]
        exact hcond
      rw [h1]
      simp [getLengths, rebuildLengths, effectiveDivisions, arcLengthTable_length]

/-- `updateArcLengths` always rebuilds: the dirty flag it sets defeats the
cache check inside the `getLengths()` call it performs. -/
theorem updateArcLengths_spec (c : Curve K P) (s : CurveState K) :
    updateArcLengths c s =
      ⟨arcLengthTable c (effectiveDivisions s none),
       ⟨some (arcLengthTable c (effectiveDivisions s none)), false, s.arcLengthDivisions⟩,
       effectiveDivisions s none + 1⟩ := by
  obtain ⟨cache?, nu, ad⟩ := s
  cases cache? with
  | none => simp [updateArcLengths, getLengths, rebuildLengths, effectiveDivisions]
  | some cache => simp [updateArcLengths, getLengths, rebuildLengths, effectiveDivisions]

/-! ### A concrete test curve over `ℚ`

The end-to-end example from the spec: a straight line from `(0,0)` to `(10,0)`,
embedded one-dimensionally (all points have `y = 0`, so the Euclidean
`distanceTo` is `|a - b|` on the x-coordinates). -/

def lineQ : Curve ℚ ℚ where
  getPoint := fun t => 10 * t
  dist := fun a b => |a - b|
  vsub := fun a b => a - b
  vnormalize := fun v => v / |v|

/-- Instance state configured with `__arcLengthDivisions = 1`. -/
def sOne : CurveState ℚ := ⟨none, false, some 1⟩

theorem effectiveDivisions_sOne : effectiveDivisions sOne none = 1 := rfl

theorem lineQ_segmentDist_pos :
    ∀ p < effectiveDivisions sOne none,
      0 < segmentDist lineQ (effectiveDivisions sOne none) p := by
  intro p hp
  rw [effectiveDivisions_sOne] at hp ⊢
  have hp0 : p = 0 := by omega
  subst hp0
  norm_num [segmentDist, lineQ]

/-! ### Characterisation of the u-to-t remapping on a fresh table -/

theorem arcLengthTable_strict (c : Curve K P) (n : ℕ)
    (hpos : ∀ p < n, 0 < segmentDist c n p) :
    ∀ j k : ℕ, j < k → k < (arcLengthTable c n).length →
      (arcLengthTable c n).getD j 0 < (arcLengthTable c n).getD k 0 := by
  intro j k hjk hk
  rw [arcLengthTable_length] at hk
  rw [arcLengthTable_getD c n j (by omega), arcLengthTable_getD c n k hk]
  exact cumDist_lt_of_pos c n hpos j k hjk (by omega)

theorem uSearch_table (c : Curve K P) (n : ℕ)
    (hpos : ∀ p < n, 0 < segmentDist c n p)
    (target : K) (h0 : 0 ≤ target) :
    0 ≤ uSearch (arcLengthTable c n) target 0 (((arcLengthTable c n).length : ℤ) - 1) ∧
    uSearch (arcLengthTable c n) target 0 (((arcLengthTable c n).length : ℤ) - 1) <
      ((arcLengthTable c n).length : ℤ) ∧
    (arcLengthTable c n).getD
      (uSearch (arcLengthTable c n) target 0 (((arcLengthTable c n).length : ℤ) - 1)).toNat 0
      ≤ target ∧
    (∀ j : ℕ, j < (arcLengthTable c n).length →
      (arcLengthTable c n).getD j 0 ≤ target →
      (j : ℤ) ≤ uSearch (arcLengthTable c n) target 0 (((arcLengthTable c n).length : ℤ) - 1)) := by
  have hlen := arcLengthTable_length c n
  refine uSearch_spec (arcLengthTable c n) target (arcLengthTable_strict c n hpos) (n + 1)
    0 (((arcLengthTable c n).length : ℤ) - 1) (by omega) (by omega) (by omega) (by omega)
    ?_ ?_ ?_
  · intro j hj
    exact absurd hj (by omega)
  · intro j hj hjlen
    exact absurd hj (by omega)
  · refine ⟨0, by omega, ?_⟩
    rw [arcLengthTable_getD c n 0 (by omega)]
    simpa [cumDist] using h0

/-- On a fresh (no cached table) state with a non-degenerate table, the value
returned by `getUtoTmapping` with no explicit distance is characterised by
the largest table index at or below the target length, with exact hits
short-circuiting the interpolation. -/
theorem getUtoTmapping_spec (c : Curve K P) (s : CurveState K) (u : K) (n : ℕ)
    (hn : n = effectiveDivisions s none)
    (hs : s.cacheArcLengths = none)
    (hpos : ∀ p < n, 0 < segmentDist c n p)
    (hu0 : 0 ≤ u) (hu1 : u ≤ 1) :
    ∃ i : ℕ, i ≤ n ∧
      (arcLengthTable c n).getD i 0 ≤ u * (arcLengthTable c n).getD n 0 ∧
      (∀ j ≤ n, (arcLengthTable c n).getD j 0 ≤ u * (arcLengthTable c n).getD n 0 → j ≤ i) ∧
      (getUtoTmapping c s u none).1 =
        (if (arcLengthTable c n).getD i 0 = u * (arcLengthTable c n).getD n 0 then
          (i : K) / (n : K)
        else
          ((i : K) + (u * (arcLengthTable c n).getD n 0 - (arcLengthTable c n).getD i 0) /
            ((arcLengthTable c n).getD (i + 1) 0 - (arcLengthTable c n).getD i 0)) / (n : K)) := by
  have hlen := arcLengthTable_length c n
  have hL0 : 0 ≤ (arcLengthTable c n).getD n 0 := by
    rw [arcLengthTable_getD c n n (by omega)]
    exact cumDist_nonneg c n (fun p hp => le_of_lt (hpos p hp)) n le_rfl
  have htarget0 : 0 ≤ u * (arcLengthTable c n).getD n 0 := mul_nonneg hu0 hL0
  obtain ⟨hr0, hrlt, hrle, hrmax⟩ :=
    uSearch_table c n hpos (u * (arcLengthTable c n).getD n 0) htarget0
  refine ⟨(uSearch (arcLengthTable c n) (u * (arcLengthTable c n).getD n 0) 0
      (((arcLengthTable c n).length : ℤ) - 1)).toNat, by omega, ?_, ?_, ?_⟩
  · simpa using hrle
  · intro j hj hjle
    have := hrmax j (by omega) hjle
    omega
  · have hGL : getLengths c s none = rebuildLengths c s n := by
      rw [getLengths_cache_none c s none hs, hn]
    simp only [getUtoTmapping, hGL, rebuildLengths, mapTargetToT]
    rw [hlen]
    have hidx : ((n : ℕ) + 1 - 1) = n := by omega
    rw [hidx]
    have hcast : (((n : ℕ) + 1 : ℕ) : K) - 1 = (n : K) := by push_cast; ring
    rw [hcast]
    have htonat : ((uSearch (arcLengthTable c n) (u * (arcLengthTable c n).getD n 0) 0
        (((arcLengthTable c n).length : ℤ) - 1)).toNat : ℤ) =
        uSearch (arcLengthTable c n) (u * (arcLengthTable c n).getD n 0) 0
          (((arcLengthTable c n).length : ℤ) - 1) := by omega
    rw [hlen] at htonat
    rw [← htonat]
    push_cast
    rfl

/-- The remapping sends `u = 0` to `t = 0` and `u = 1` to `t = 1` on any
fresh, non-degenerate curve. -/
theorem getUtoTmapping_boundary (c : Curve K P) (s : CurveState K)
    (hs : s.cacheArcLengths = none)
    (hpos : ∀ p < effectiveDivisions s none,
      0 < segmentDist c (effectiveDivisions s none) p) :
    (getUtoTmapping c s 0 none).1 = 0 ∧ (getUtoTmapping c s 1 none).1 = 1 := by
  set n := effectiveDivisions s none with hn
  have hnpos : 0 < n := effectiveDivisions_pos s none
  constructor
  · obtain ⟨i, hin, hile, hmax, heq⟩ :=
      getUtoTmapping_spec c s 0 n hn hs hpos le_rfl zero_le_one
    have hi0 : i = 0 := by
      by_contra hne
      have h1 : (arcLengthTable c n).getD 0 0 < (arcLengthTable c n).getD i 0 := by
        rw [arcLengthTable_getD c n 0 (by omega), arcLengthTable_getD c n i (by omega)]
        exact cumDist_lt_of_pos c n hpos 0 i (by omega) hin
      have h2 : (arcLengthTable c n).getD 0 0 = 0 := by
        rw [arcLengthTable_getD c n 0 (by omega)]; rfl
      rw [h2] at h1
      simp only [zero_mul] at hile
      linarith
    subst hi0
    rw [heq]
    have h2 : (arcLengthTable c n).getD 0 0 = 0 := by
      rw [arcLengthTable_getD c n 0 (by omega)]; rfl
    rw [if_pos (by rw [h2, zero_mul])]
    simp
  · obtain ⟨i, hin, hile, hmax, heq⟩ :=
      getUtoTmapping_spec c s 1 n hn hs hpos zero_le_one le_rfl
    have hin' : i = n := by
      have := hmax n le_rfl (by rw [one_mul])
      omega
    subst hin'
    rw [heq, if_pos (by rw [one_mul])]
    exact div_self (Nat.cast_ne_zero.mpr (by omega))

theorem arcLengthTable_first (c : Curve K P) (n : ℕ) :
    (arcLengthTable c n).getD 0 0 = 0 := by
  rw [arcLengthTable_getD c n 0 (by omega)]
  rfl

theorem arcLengthTable_mono (c : Curve K P) (n : ℕ)
    (h : ∀ p < n, 0 ≤ segmentDist c n p) :
    ∀ j k, j ≤ k → k < (arcLengthTable c n).length →
      (arcLengthTable c n).getD j 0 ≤ (arcLengthTable c n).getD k 0 := by
  intro j k hjk hk
  rw [arcLengthTable_length] at hk
  rw [arcLengthTable_getD c n j (by omega), arcLengthTable_getD c n k (by omega)]
  exact cumDist_le_of_nonneg c n h j k hjk (by omega)

/-- A state is well-formed when whatever table it caches was produced by the
table builder (the only writer of `cacheArcLengths` in the class). -/
def WfState (c : Curve K P) (s : CurveState K) : Prop :=
  ∀ t, s.cacheArcLengths = some t → ∃ m, t = arcLengthTable c m

/-- On a well-formed state the table handed out by `getLengths` is always the
built table at the effective division count (fresh or cached). -/
theorem getLengths_table_eq (c : Curve K P) (s : CurveState K) (d? : Option ℕ)
    (hWF : WfState c s) :
    (getLengths c s d?).table = arcLengthTable c (effectiveDivisions s d?) := by
  obtain ⟨cache?, nu, ad⟩ := s
  cases cache? with
  | none => rfl
  | some cache =>
    obtain ⟨m, hm⟩ := hWF cache rfl
    subst hm
    by_cases hcond : (arcLengthTable c m).length =
        effectiveDivisions (⟨some (arcLengthTable c m), nu, ad⟩ : CurveState K) d? + 1 ∧
        nu = false
    · have hmn : m = effectiveDivisions
          (⟨some (arcLengthTable c m), nu, ad⟩ : CurveState K) d? := by
        have := hcond.1
        rw [arcLengthTable_length] at this
        omega
      simp only [getLengths, if_pos hcond]
      rw [← hmn]
    · simp only [getLengths, if_neg hcond]
      rfl

/-! ### The claims -/

/-- C1: for every curve (fresh state, non-degenerate arc-length table), the
u-to-t remapping returns `t = 0` for `u = 0` and `t = 1` for `u = 1`, and
consequently `getPointAt(0)` equals `getPoint(0)` and `getPointAt(1)` equals
`getPoint(1)`. -/
theorem C1_remap_boundary (c : Curve K P) (s : CurveState K)
    (hs : s.cacheArcLengths = none)
    (hpos : ∀ p < effectiveDivisions s none,
      0 < segmentDist c (effectiveDivisions s none) p) :
    (getUtoTmapping c s 0 none).1 = 0 ∧ (getUtoTmapping c s 1 none).1 = 1 ∧
    (getPointAt c s 0).1 = c.getPoint 0 ∧ (getPointAt c s 1).1 = c.getPoint 1 := by
  obtain ⟨h0, h1⟩ := getUtoTmapping_boundary c s hs hpos
  refine ⟨h0, h1, ?_, ?_⟩
  · show c.getPoint (getUtoTmapping c s 0 none).1 = c.getPoint 0
    rw [h0]
  · show c.getPoint (getUtoTmapping c s 1 none).1 = c.getPoint 1
    rw [h1]

/-- Witness for C1 on the end-to-end line example from the spec. -/
theorem C1_remap_boundary_witness :
    (getUtoTmapping lineQ sOne 0 none).1 = 0 ∧ (getUtoTmapping lineQ sOne 1 none).1 = 1 ∧
    (getPointAt lineQ sOne 0).1 = lineQ.getPoint 0 ∧
    (getPointAt lineQ sOne 1).1 = lineQ.getPoint 1 :=
  C1_remap_boundary lineQ sOne rfl lineQ_segmentDist_pos

/-- C2: for every curve (well-formed cache, non-negative point distances) and
positive division count, the table returned by `getLengths` has exactly
`divisions + 1` entries, starts at `0`, and is non-decreasing. -/
theorem C2_table_invariant (c : Curve K P) (s : CurveState K) (n : ℕ)
    (hn : 0 < n) (hWF : WfState c s)
    (hnn : ∀ p < n, 0 ≤ segmentDist c n p) :
    (getLengths c s (some n)).table.length = n + 1 ∧
    (getLengths c s (some n)).table.getD 0 0 = 0 ∧
    ∀ j k, j ≤ k → k < (getLengths c s (some n)).table.length →
      (getLengths c s (some n)).table.getD j 0 ≤ (getLengths c s (some n)).table.getD k 0 := by
  have heq := getLengths_table_eq c s (some n) hWF
  rw [effectiveDivisions_some s n (by omega)] at heq
  rw [heq]
  exact ⟨arcLengthTable_length c n, arcLengthTable_first c n, arcLengthTable_mono c n hnn⟩

/-- Witness for C2: the line example at 2 divisions. -/
theorem C2_table_invariant_witness :
    (getLengths lineQ sOne (some 2)).table.length = 2 + 1 ∧
    (getLengths lineQ sOne (some 2)).table.getD 0 0 = 0 ∧
    ∀ j k, j ≤ k → k < (getLengths lineQ sOne (some 2)).table.length →
      (getLengths lineQ sOne (some 2)).table.getD j 0 ≤
        (getLengths lineQ sOne (some 2)).table.getD k 0 :=
  C2_table_invariant lineQ sOne 2 (by norm_num)
    (fun t h => absurd h (by simp [sOne]))
    (by intro p hp
        simp only [segmentDist, lineQ]
        positivity)

/-- C3: with no absolute distance supplied, `getUtoTmapping` returns the
result of binary-searching for the largest index `i` with
`table[i] <= u * table[N-1]`, returning `i / (N-1)` on an exact hit and the
linear interpolation `(i + fraction) / (N-1)` otherwise (here `N - 1 = n`,
the division count of the freshly built table). -/
theorem C3_binary_search (c : Curve K P) (s : CurveState K) (u : K) (n : ℕ)
    (hn : n = effectiveDivisions s none)
    (hs : s.cacheArcLengths = none)
    (hpos : ∀ p < n, 0 < segmentDist c n p)
    (hu0 : 0 ≤ u) (hu1 : u ≤ 1) :
    ∃ i : ℕ, i ≤ n ∧
      (arcLengthTable c n).getD i 0 ≤ u * (arcLengthTable c n).getD n 0 ∧
      (∀ j ≤ n, (arcLengthTable c n).getD j 0 ≤ u * (arcLengthTable c n).getD n 0 → j ≤ i) ∧
      (getUtoTmapping c s u none).1 =
        (if (arcLengthTable c n).getD i 0 = u * (arcLengthTable c n).getD n 0 then
          (i : K) / (n : K)
        else
          ((i : K) + (u * (arcLengthTable c n).getD n 0 - (arcLengthTable c n).getD i 0) /
            ((arcLengthTable c n).getD (i + 1) 0 - (arcLengthTable c n).getD i 0)) / (n : K)) :=
  getUtoTmapping_spec c s u n hn hs hpos hu0 hu1

/-- Witness for C3 at `u = 1/2` on the line example. -/
theorem C3_binary_search_witness :
    ∃ i : ℕ, i ≤ 1 ∧
      (arcLengthTable lineQ 1).getD i 0 ≤ (1 / 2 : ℚ) * (arcLengthTable lineQ 1).getD 1 0 ∧
      (∀ j ≤ 1, (arcLengthTable lineQ 1).getD j 0 ≤
        (1 / 2 : ℚ) * (arcLengthTable lineQ 1).getD 1 0 → j ≤ i) ∧
      (getUtoTmapping lineQ sOne (1 / 2) none).1 =
        (if (arcLengthTable lineQ 1).getD i 0 =
            (1 / 2 : ℚ) * (arcLengthTable lineQ 1).getD 1 0 then
          (i : ℚ) / (1 : ℚ)
        else
          ((i : ℚ) + ((1 / 2 : ℚ) * (arcLengthTable lineQ 1).getD 1 0 -
              (arcLengthTable lineQ 1).getD i 0) /
            ((arcLengthTable lineQ 1).getD (i + 1) 0 - (arcLengthTable lineQ 1).getD i 0)) /
            (1 : ℚ)) :=
  C3_binary_search lineQ sOne (1 / 2) 1 rfl rfl
    (by intro p hp
        have hp0 : p = 0 := by omega
        subst hp0
        norm_num [segmentDist, lineQ])
    (by norm_num) (by norm_num)

/-- A supplied distance of `0` is falsy in `if (distance)` and behaves
exactly like an omitted distance. -/
theorem getUtoTmapping_distance_zero (c : Curve K P) (s : CurveState K) (u : K) :
    getUtoTmapping c s u (some 0) = getUtoTmapping c s u none := by
  simp [getUtoTmapping]

/-- C4 counterexample: with a supplied distance of `0` the `u` argument is
not ignored — on the line example the result still follows `u`. -/
theorem C4_distance_counterexample :
    (getUtoTmapping lineQ sOne 1 (some 0)).1 ≠ (getUtoTmapping lineQ sOne 0 (some 0)).1 := by
  rw [getUtoTmapping_distance_zero, getUtoTmapping_distance_zero]
  obtain ⟨h0, h1⟩ := getUtoTmapping_boundary lineQ sOne rfl lineQ_segmentDist_pos
  rw [h0, h1]
  norm_num

/-- C4 (amended): whenever a non-zero distance is supplied, the search target
is exactly that distance and `u` is ignored; a supplied distance of `0` is
falsy and falls back to `u * table[N-1]`. -/
theorem C4_distance_verbatim (c : Curve K P) (s : CurveState K) (u : K) (d : K)
    (hd : d ≠ 0) :
    getUtoTmapping c s u (some d) =
      (mapTargetToT (getLengths c s none).table d, (getLengths c s none).state) := by
  simp [getUtoTmapping, hd]

/-- Witness for the amended C4. -/
theorem C4_distance_verbatim_witness :
    getUtoTmapping lineQ sOne (1 / 2) (some 5) =
      (mapTargetToT (getLengths lineQ sOne none).table 5, (getLengths lineQ sOne none).state) :=
  C4_distance_verbatim lineQ sOne (1 / 2) 5 (by norm_num)

/-- C5: a second `getLengths` call with the same division count and no
intervening invalidation returns the identical cached table, performs zero
evaluator calls, and leaves the state unchanged. -/
theorem C5_cache_reuse (c : Curve K P) (s : CurveState K) (d? : Option ℕ) :
    getLengths c (getLengths c s d?).state d? =
      ⟨(getLengths c s d?).table, (getLengths c s d?).state, 0⟩ :=
  getLengths_stable c s d?

/-- C6 counterexample: after `updateArcLengths`, the next `getLengths` call
with the unchanged (default) division count performs zero evaluator
samples — the rebuild already happened inside `updateArcLengths`. -/
theorem C6_no_resample_counterexample :
    (getLengths lineQ
      (updateArcLengths lineQ (getLengths lineQ sOne none).state).state none).evalCalls = 0 := by
  rw [updateArcLengths]
  rw [getLengths_stable]

/-- C6 (amended): `updateArcLengths` itself re-samples the evaluator
(`divisions + 1` fresh calls) and stores a freshly rebuilt table, and the
next `getLengths` call returns exactly that post-invalidation table (from
cache, with no further sampling) rather than the pre-invalidation one. -/
theorem C6_invalidation_rebuilds (c : Curve K P) (s : CurveState K) :
    (updateArcLengths c s).evalCalls = effectiveDivisions s none + 1 ∧
    (updateArcLengths c s).table = arcLengthTable c (effectiveDivisions s none) ∧
    getLengths c (updateArcLengths c s).state none =
      ⟨(updateArcLengths c s).table, (updateArcLengths c s).state, 0⟩ := by
  refine ⟨?_, ?_, ?_⟩
  · rw [updateArcLengths_spec]
  · rw [updateArcLengths_spec]
  · rw [updateArcLengths]
    exact getLengths_stable c ⟨s.cacheArcLengths, true, s.arcLengthDivisions⟩ none

/-- C7: the numerical tangent fallback equals the normalized difference of
the two clamped samples, and both sample parameters stay inside `[0, 1]`
whenever `t` does. -/
theorem C7_tangent_clamped (c : Curve K P) (t : K) (h0 : 0 ≤ t) (h1 : t ≤ 1) :
    getTangent c t =
      c.vnormalize (c.vsub (c.getPoint (min (t + 1 / 10000) 1))
        (c.getPoint (max (t - 1 / 10000) 0))) ∧
    0 ≤ max (t - 1 / 10000) 0 ∧ max (t - 1 / 10000) 0 ≤ 1 ∧
    0 ≤ min (t + 1 / 10000) 1 ∧ min (t + 1 / 10000) 1 ≤ 1 := by
  have hd : (0 : K) < 1 / 10000 := by norm_num
  refine ⟨?_, le_max_right _ _, max_le (by linarith) zero_le_one,
    le_min (by linarith) zero_le_one, min_le_right _ _⟩
  simp only [getTangent]
  have hmin : (if 1 < t + 1 / 10000 then (1 : K) else t + 1 / 10000) =
      min (t + 1 / 10000) 1 := by
    rcases le_or_lt (t + 1 / 10000) 1 with h | h
    · rw [if_neg (not_lt.mpr h), min_eq_left h]
    · rw [if_pos h, min_eq_right (le_of_lt h)]
  have hmax : (if t - 1 / 10000 < 0 then (0 : K) else t - 1 / 10000) =
      max (t - 1 / 10000) 0 := by
    rcases lt_or_le (t - 1 / 10000) 0 with h | h
    · rw [if_pos h, max_eq_right (le_of_lt h)]
    · rw [if_neg (not_lt.mpr h), max_eq_left h]
  rw [hmin, hmax]

/-- Witness for C7 at `t = 1/2` on the line example. -/
theorem C7_tangent_clamped_witness :
    getTangent lineQ (1 / 2) =
      lineQ.vnormalize (lineQ.vsub (lineQ.getPoint (min ((1 / 2 : ℚ) + 1 / 10000) 1))
        (lineQ.getPoint (max ((1 / 2 : ℚ) - 1 / 10000) 0))) ∧
    0 ≤ max ((1 / 2 : ℚ) - 1 / 10000) 0 ∧ max ((1 / 2 : ℚ) - 1 / 10000) 0 ≤ 1 ∧
    0 ≤ min ((1 / 2 : ℚ) + 1 / 10000) 1 ∧ min ((1 / 2 : ℚ) + 1 / 10000) 1 ≤ 1 :=
  C7_tangent_clamped lineQ (1 / 2) (by norm_num) (by norm_num)

theorem spacedFold_length (c : Curve K P) (dv : ℕ) :
    ∀ (l : List ℕ) (acc : List P) (s : CurveState K),
      ((l.foldl (fun (acc2 : List P × CurveState K) (d : ℕ) =>
        (acc2.1 ++ [(getPointAt c acc2.2 ((d : K) / (dv : K))).1],
         (getPointAt c acc2.2 ((d : K) / (dv : K))).2)) (acc, s)).1).length
        = acc.length + l.length := by
  intro l
  induction l with
  | nil => intro acc s; rfl
  | cons x xs ih =>
    intro acc s
    rw [List.foldl_cons]
    rw [ih]
    simp only [List.length_append, List.length_singleton, List.length_cons,
      List.length_nil]
    omega

theorem getSpacedPoints_length (c : Curve K P) (s : CurveState K) (d? : Option ℕ) :
    (getSpacedPoints c s d?).1.length = fallback d? 5 + 1 := by
  simp only [getSpacedPoints]
  rw [spacedFold_length]
  simp

/-- C10: a division count of `0` is falsy and behaves exactly as if the
argument were omitted: `getPoints(0)` and `getSpacedPoints(0)` use the
default of 5 divisions and return 6 points, and `getLengths(0)` falls back
to the configured/default (200) count. -/
theorem C10_zero_divisions_default (c : Curve K P) (s : CurveState K) :
    getPoints c (some 0) = getPoints c none ∧
    (getPoints c (some 0)).length = 6 ∧
    getSpacedPoints c s (some 0) = getSpacedPoints c s none ∧
    (getSpacedPoints c s (some 0)).1.length = 6 ∧
    getLengths c s (some 0) = getLengths c s none := by
  refine ⟨rfl, ?_, rfl, ?_, rfl⟩
  · simp only [getPoints, List.length_map, List.length_range]
    rfl
  · rw [getSpacedPoints_length]
    rfl

/-! ### Three-dimensional vectors

The `Vector3`, `Matrix4` and `Clamp` utilities consumed by
`computeFrenetFrames` come from `../../math`, outside this repository slice;
the spec (§2) lists them as external numeric primitives with add, subtract,
cross, dot, normalize, distance and rotate-about-axis-by-angle operations,
so they are modelled from the spec below. -/

/-- Modelled from the spec: the 3D vector primitive (`Vector3`). -/
structure V3 where
  x : ℝ
  y : ℝ
  z : ℝ

/-- Modelled from the spec: vector addition. -/
def v3add (a b : V3) : V3 := ⟨a.x + b.x, a.y + b.y, a.z + b.z⟩

/-- Modelled from the spec: vector subtraction (`clone().sub(...)`). -/
def v3sub (a b : V3) : V3 := ⟨a.x - b.x, a.y - b.y, a.z - b.z⟩

/-- Modelled from the spec: scalar multiplication. -/
def v3smul (r : ℝ) (a : V3) : V3 := ⟨r * a.x, r * a.y, r * a.z⟩

/-- Modelled from the spec: dot product. -/
def v3dot (a b : V3) : ℝ := a.x * b.x + a.y * b.y + a.z * b.z

/-- Modelled from the spec: cross product (`crossVectors`). -/
def v3cross (a b : V3) : V3 :=
  ⟨a.y * b.z - a.z * b.y, a.z * b.x - a.x * b.z, a.x * b.y - a.y * b.x⟩

/-- Modelled from the spec: Euclidean length (`length()`). -/
noncomputable def v3norm (a : V3) : ℝ := Real.sqrt (v3dot a a)

/-- Modelled from the spec: `normalize()` divides by the length; a zero
vector is left unchanged by the reference vector class, which matches
`(0 : ℝ)⁻¹ = 0` here without a branch. -/
noncomputable def v3normalize (a : V3) : V3 := v3smul (v3norm a)⁻¹ a

/-- Modelled from the spec: `Clamp(value, min, max)` keeps `acos` arguments
inside `[-1, 1]`. -/
def clampR (v lo hi : ℝ) : ℝ := max lo (min hi v)

/-- `Number.EPSILON`, the double-precision machine epsilon `2⁻⁵²`. -/
noncomputable def jsEpsilon : ℝ := 1 / 2 ^ 52

/-- Rotation about an axis expressed through its cosine and sine, in
Rodrigues form — exactly the linear map of the axis-angle rotation matrix. -/
def rotG (axis : V3) (cθ sθ : ℝ) (v : V3) : V3 :=
  v3add (v3add (v3smul cθ v) (v3smul sθ (v3cross axis v)))
    (v3smul ((1 - cθ) * v3dot axis v) axis)

/-- Modelled from the spec: `vec.transformMat4(mat.makeRotationAxis(axis,
angle))`, the standard axis-angle rotation of a vector. -/
noncomputable def rotAxis (axis : V3) (angle : ℝ) (v : V3) : V3 :=
  rotG axis (Real.cos angle) (Real.sin angle) v

/-! #### Coordinate algebra for `V3` -/

theorem v3ext {a b : V3} (hx : a.x = b.x) (hy : a.y = b.y) (hz : a.z = b.z) :
    a = b := by
  obtain ⟨ax, ay, az⟩ := a
  obtain ⟨bx, by', bz⟩ := b
  simp_all

theorem v3dot_comm (a b : V3) : v3dot a b = v3dot b a := by
  simp only [v3dot]; ring

theorem v3dot_self_nonneg (a : V3) : 0 ≤ v3dot a a :=
  add_nonneg (add_nonneg (mul_self_nonneg _) (mul_self_nonneg _)) (mul_self_nonneg _)

theorem v3dot_self_eq_zero {a : V3} (h : v3dot a a = 0) : a = ⟨0, 0, 0⟩ := by
  obtain ⟨ax, ay, az⟩ := a
  simp only [v3dot] at h
  have hx : ax = 0 := by nlinarith
  have hy : ay = 0 := by nlinarith
  have hz : az = 0 := by nlinarith
  simp [hx, hy, hz]

theorem v3dot_cross_left (a b : V3) : v3dot (v3cross a b) a = 0 := by
  simp only [v3dot, v3cross]; ring

theorem v3dot_cross_right (a b : V3) : v3dot (v3cross a b) b = 0 := by
  simp only [v3dot, v3cross]; ring

theorem v3dot_cross_pair (a u v : V3) :
    v3dot (v3cross a u) (v3cross a v) =
      v3dot a a * v3dot u v - v3dot a u * v3dot a v := by
  simp only [v3dot, v3cross]; ring

theorem v3dot_cross_cyclic (a b c : V3) :
    v3dot (v3cross a b) c = v3dot (v3cross b c) a := by
  simp only [v3dot, v3cross]; ring

theorem v3cross_cross_left (a b c : V3) :
    v3cross (v3cross a b) c = v3sub (v3smul (v3dot a c) b) (v3smul (v3dot b c) a) := by
  simp only [v3cross, v3sub, v3smul, v3dot]
  refine v3ext ?_ ?_ ?_ <;> simp <;> ring

theorem v3cross_smul_left (r : ℝ) (a b : V3) :
    v3cross (v3smul r a) b = v3smul r (v3cross a b) := by
  simp only [v3cross, v3smul]
  refine v3ext ?_ ?_ ?_ <;> simp <;> ring

theorem v3dot_smul_left (r : ℝ) (a b : V3) :
    v3dot (v3smul r a) b = r * v3dot a b := by
  simp only [v3dot, v3smul]; ring

theorem v3dot_smul_right (r : ℝ) (a b : V3) :
    v3dot a (v3smul r b) = r * v3dot a b := by
  simp only [v3dot, v3smul]; ring

theorem v3dot_add_left (a b c : V3) :
    v3dot (v3add a b) c = v3dot a c + v3dot b c := by
  simp only [v3dot, v3add]; ring

theorem v3dot_add_right (a b c : V3) :
    v3dot a (v3add b c) = v3dot a b + v3dot a c := by
  simp only [v3dot, v3add]; ring

theorem v3dot_sub_left (a b c : V3) :
    v3dot (v3sub a b) c = v3dot a c - v3dot b c := by
  simp only [v3dot, v3sub]; ring

theorem v3dot_sub_right (a b c : V3) :
    v3dot a (v3sub b c) = v3dot a b - v3dot a c := by
  simp only [v3dot, v3sub]; ring

theorem v3smul_smul (r t : ℝ) (a : V3) :
    v3smul r (v3smul t a) = v3smul (r * t) a := by
  simp only [v3smul]
  refine v3ext ?_ ?_ ?_ <;> simp <;> ring

theorem v3smul_one (a : V3) : v3smul 1 a = a := by
  simp only [v3smul]
  refine v3ext ?_ ?_ ?_ <;> simp

theorem v3smul_zero (a : V3) : v3smul 0 a = ⟨0, 0, 0⟩ := by
  simp [v3smul]

theorem v3add_zero (a : V3) : v3add a ⟨0, 0, 0⟩ = a := by
  simp only [v3add]
  refine v3ext ?_ ?_ ?_ <;> simp

theorem v3norm_sq (a : V3) : v3norm a ^ 2 = v3dot a a := by
  rw [v3norm, Real.sq_sqrt (v3dot_self_nonneg a)]

theorem v3norm_nonneg (a : V3) : 0 ≤ v3norm a := Real.sqrt_nonneg _

theorem v3norm_pos {a : V3} (h : a ≠ ⟨0, 0, 0⟩) : 0 < v3norm a := by
  rw [v3norm]
  refine Real.sqrt_pos.mpr (lt_of_le_of_ne (v3dot_self_nonneg a) ?_)
  intro heq
  exact h (v3dot_self_eq_zero heq.symm)

theorem v3normalize_self_dot {a : V3} (h : a ≠ ⟨0, 0, 0⟩) :
    v3dot (v3normalize a) (v3normalize a) = 1 := by
  rw [v3normalize, v3dot_smul_left, v3dot_smul_right]
  have hpos : 0 < v3norm a := v3norm_pos h
  have : v3norm a * v3norm a = v3dot a a := by
    have := v3norm_sq a
    nlinarith
  field_simp
  nlinarith

theorem v3normalize_of_unit {a : V3} (h : v3dot a a = 1) : v3normalize a = a := by
  rw [v3normalize, v3norm, h, Real.sqrt_one, inv_one, v3smul_one]

/-- Rotation by any angle about a unit axis preserves dot products. -/
theorem rotG_dot (a : V3) (cθ sθ : ℝ) (hcs : cθ ^ 2 + sθ ^ 2 = 1)
    (ha : v3dot a a = 1) (u v : V3) :
    v3dot (rotG a cθ sθ u) (rotG a cθ sθ v) = v3dot u v := by
  obtain ⟨a1, a2, a3⟩ := a
  obtain ⟨u1, u2, u3⟩ := u
  obtain ⟨v1, v2, v3'⟩ := v
  simp only [rotG, v3add, v3smul, v3cross, v3dot] at *
  linear_combination
    ((u1 * v1 + u2 * v2 + u3 * v3') -
      (a1 * u1 + a2 * u2 + a3 * u3) * (a1 * v1 + a2 * v2 + a3 * v3')) * hcs +
    ((u1 * v1 + u2 * v2 + u3 * v3') * sθ ^ 2 +
      (a1 * u1 + a2 * u2 + a3 * u3) * (a1 * v1 + a2 * v2 + a3 * v3') * (1 - cθ) ^ 2) * ha

/-- The rotation axis itself is fixed by the rotation. -/
theorem rotG_fixed_axis (a : V3) (cθ sθ : ℝ) (ha : v3dot a a = 1) :
    rotG a cθ sθ a = a := by
  obtain ⟨a1, a2, a3⟩ := a
  simp only [rotG, v3add, v3smul, v3cross, v3dot, V3.mk.injEq] at *
  refine ⟨?_, ?_, ?_⟩
  · linear_combination ((1 - cθ) * a1) * ha
  · linear_combination ((1 - cθ) * a2) * ha
  · linear_combination ((1 - cθ) * a3) * ha

/-- Parallel transport: rotating about the normalized cross product of two
unit tangents by the angle between them carries the first tangent to the
second (stated with the cosine/sine pair the rotation actually receives). -/
theorem rotG_transport (t1 t2 : V3) (h1 : v3dot t1 t1 = 1)
    (hw : v3cross t1 t2 ≠ ⟨0, 0, 0⟩) :
    rotG (v3normalize (v3cross t1 t2)) (v3dot t1 t2) (v3norm (v3cross t1 t2)) t1 = t2 := by
  have hS : 0 < v3norm (v3cross t1 t2) := v3norm_pos hw
  have hSR : v3norm (v3cross t1 t2) * (v3norm (v3cross t1 t2))⁻¹ = 1 :=
    mul_inv_cancel₀ (ne_of_gt hS)
  have hwt : v3dot (v3cross t1 t2) t1 = 0 := v3dot_cross_left t1 t2
  rw [rotG, v3normalize]
  rw [v3cross_smul_left, v3smul_smul, hSR, v3smul_one]
  rw [v3dot_smul_left, hwt, mul_zero, mul_zero, v3smul_zero, v3add_zero]
  rw [v3cross_cross_left, h1, v3smul_one]
  rw [v3dot_comm t2 t1]
  refine v3ext ?_ ?_ ?_ <;>
    simp only [v3add, v3sub, v3smul, v3dot] <;> ring

/-- Exactly collinear consecutive unit tangents: the carried-over normal
stays perpendicular to the new tangent. -/
theorem cross_zero_perp (t1 t2 n : V3) (h1 : v3dot t1 t1 = 1)
    (hc : v3cross t1 t2 = ⟨0, 0, 0⟩) (hn : v3dot t1 n = 0) :
    v3dot t2 n = 0 := by
  have hpar : t2 = v3smul (v3dot t1 t2) t1 := by
    have hzero : v3dot (v3sub t2 (v3smul (v3dot t1 t2) t1))
        (v3sub t2 (v3smul (v3dot t1 t2) t1)) = 0 := by
      have hlag : v3dot (v3cross t1 t2) (v3cross t1 t2) =
          v3dot t1 t1 * v3dot t2 t2 - v3dot t1 t2 * v3dot t1 t2 :=
        v3dot_cross_pair t1 t2 t2
      rw [hc, h1, one_mul] at hlag
      have hz : v3dot ⟨0, 0, 0⟩ (⟨0, 0, 0⟩ : V3) = 0 := by simp [v3dot]
      rw [hz] at hlag
      simp only [v3dot_sub_left, v3dot_sub_right, v3dot_smul_left, v3dot_smul_right]
      rw [h1, v3dot_comm t2 t1]
      linear_combination -hlag
    have := v3dot_self_eq_zero hzero
    have h2 : v3sub t2 (v3smul (v3dot t1 t2) t1) = ⟨0, 0, 0⟩ := this
    obtain ⟨x1, y1, z1⟩ := t1
    obtain ⟨x2, y2, z2⟩ := t2
    simp only [v3sub, v3smul, v3dot, V3.mk.injEq] at h2 ⊢
    refine ⟨by linarith [h2.1], by linarith [h2.2.1], by linarith [h2.2.2]⟩
  rw [hpar, v3dot_smul_left, hn, mul_zero]

/-! ### The Frenet frame builder (`computeFrenetFrames`, lines 261-369) -/

/-- Lines 291-315: the seed axis for the initial normal — the comparison
chain against a running minimum initialised to `Number.MAX_VALUE` (which
exceeds any tangent component, so the first branch always fires). -/
noncomputable def frenetInitialNormal (t0 : V3) : V3 :=
  let tx := |t0.x|
  let ty := |t0.y|
  let tz := |t0.z|
  let n1 : V3 := ⟨1, 0, 0⟩
  let m1 := tx
  let n2 : V3 := if ty ≤ m1 then ⟨0, 1, 0⟩ else n1
  let m2 : ℝ := if ty ≤ m1 then ty else m1
  if tz ≤ m2 then ⟨0, 0, 1⟩ else n2

/-- Lines 317-342: the seed normal/binormal pair and their parallel-transport
propagation; entry `i` is `(normals[i], binormals[i])` before the
closed-curve correction. -/
noncomputable def frenetNB (T : ℕ → V3) : ℕ → V3 × V3
  | 0 =>
    let vec := v3normalize (v3cross (T 0) (frenetInitialNormal (T 0)))
    let n0 := v3cross (T 0) vec
    (n0, v3cross (T 0) n0)
  | i + 1 =>
    let prev := frenetNB T i
    let w := v3cross (T i) (T (i + 1))
    let n :=
      if jsEpsilon < v3norm w then
        rotAxis (v3normalize w)
          (Real.arccos (clampR (v3dot (T i) (T (i + 1))) (-1) 1)) prev.1
      else prev.1
    (n, v3cross (T (i + 1)) n)

/-- Lines 344-362: the closed-curve twist correction applied to entry `i`
(the loop runs from `i = 1`, so entry `0` is untouched). -/
noncomputable def frenetCorrected (T : ℕ → V3) (segments : ℕ) (closed : Bool) (i : ℕ) :
    V3 × V3 :=
  if closed then
    if i = 0 then frenetNB T i
    else
      let theta0 := Real.arccos
        (clampR (v3dot (frenetNB T 0).1 (frenetNB T segments).1) (-1) 1) / (segments : ℝ)
      let theta := if 0 < v3dot (T 0)
          (v3cross (frenetNB T 0).1 (frenetNB T segments).1) then -theta0 else theta0
      let n := rotAxis (T i) (theta * (i : ℝ)) (frenetNB T i).1
      (n, v3cross (T i) n)
  else frenetNB T i

/-- Lines 280-286: sample the `segments + 1` tangents via `getTangentAt`
(threading the instance state) and normalize each. -/
noncomputable def frenetTangents (c : Curve ℝ V3) (s : CurveState ℝ) (segments : ℕ) :
    List V3 × CurveState ℝ :=
  (List.range (segments + 1)).foldl
    (fun (acc : List V3 × CurveState ℝ) (i : ℕ) =>
      (acc.1 ++ [v3normalize (getTangentAt c acc.2 ((i : ℝ) / (segments : ℝ))).1],
       (getTangentAt c acc.2 ((i : ℝ) / (segments : ℝ))).2))
    ([], s)

/-- The three parallel sequences returned by `computeFrenetFrames`. -/
structure FrenetFrames where
  tangents : List V3
  normals : List V3
  binormals : List V3

/-- `Curve.computeFrenetFrames(segments, closed)` (lines 261-369). -/
noncomputable def computeFrenetFrames (c : Curve ℝ V3) (s : CurveState ℝ)
    (segments : ℕ) (closed : Bool) : FrenetFrames × CurveState ℝ :=
  let ts := frenetTangents c s segments
  let T : ℕ → V3 := fun i => ts.1.getD i ⟨0, 0, 0⟩
  (⟨ts.1,
    (List.range (segments + 1)).map (fun i => (frenetCorrected T segments closed i).1),
    (List.range (segments + 1)).map (fun i => (frenetCorrected T segments closed i).2)⟩,
   ts.2)

/-- A 3D curve with the standard Euclidean vector operations. -/
noncomputable def mkCurve3 (f : ℝ → V3) : Curve ℝ V3 :=
  ⟨f, fun a b => v3norm (v3sub a b), v3sub, v3normalize⟩

/-- The state-independent value of tangent sample `i` of the Frenet builder:
`normalize(getTangentAt(i / segments))` computed against the table that
`getLengths()` yields from state `s`. -/
noncomputable def frameTangent (c : Curve ℝ V3) (s : CurveState ℝ) (segments i : ℕ) : V3 :=
  v3normalize (getTangent c
    (mapTargetToT (getLengths c s none).table
      (((i : ℝ) / (segments : ℝ)) * (getLengths c s none).table.getD
        ((getLengths c s none).table.length - 1) 0)))

theorem getTangentAt_fresh (c : Curve K P) (s : CurveState K) (u : K) :
    getTangentAt c s u =
      (getTangent c (mapTargetToT (getLengths c s none).table
        (u * (getLengths c s none).table.getD ((getLengths c s none).table.length - 1) 0)),
       (getLengths c s none).state) := rfl

theorem getTangentAt_after (c : Curve K P) (s : CurveState K) (u : K) :
    getTangentAt c (getLengths c s none).state u =
      (getTangent c (mapTargetToT (getLengths c s none).table
        (u * (getLengths c s none).table.getD ((getLengths c s none).table.length - 1) 0)),
       (getLengths c s none).state) := by
  simp only [getTangentAt, getUtoTmapping, getLengths_stable c s none]

theorem getD_map_range {α : Type} (g : ℕ → α) (n i : ℕ) (d : α) (h : i < n) :
    ((List.range n).map g).getD i d = g i := by
  rw [List.getD_eq_getElem?_getD, List.getElem?_map, List.getElem?_range h]
  rfl

theorem frenetTangents_fold (c : Curve ℝ V3) (s : CurveState ℝ) (m : ℕ) :
    ∀ (l : List ℕ) (acc : List V3),
      (l.foldl (fun (acc2 : List V3 × CurveState ℝ) (i : ℕ) =>
        (acc2.1 ++ [v3normalize (getTangentAt c acc2.2 ((i : ℝ) / (m : ℝ))).1],
         (getTangentAt c acc2.2 ((i : ℝ) / (m : ℝ))).2)) (acc, (getLengths c s none).state)) =
      (acc ++ l.map (fun i => frameTangent c s m i), (getLengths c s none).state) := by
  intro l
  induction l with
  | nil => intro acc; simp
  | cons j js ih =>
    intro acc
    rw [List.foldl_cons]
    have hx := getTangentAt_after c s ((j : ℝ) / (m : ℝ))
    simp only [hx]
    rw [ih (acc ++ [v3normalize (getTangent c
      (mapTargetToT (getLengths c s none).table
        (((j : ℝ) / (m : ℝ)) * (getLengths c s none).table.getD
          ((getLengths c s none).table.length - 1) 0)))])]
    simp [frameTangent, List.append_assoc]

theorem frenetTangents_eq (c : Curve ℝ V3) (s : CurveState ℝ) (m : ℕ) :
    frenetTangents c s m =
      ((List.range (m + 1)).map (fun i => frameTangent c s m i),
       (getLengths c s none).state) := by
  rw [frenetTangents, List.range_succ_eq_map, List.foldl_cons]
  simp only [getTangentAt_fresh c s]
  rw [frenetTangents_fold c s m]
  simp [frameTangent, List.map_map]

theorem v3norm_zero_vec : v3norm ⟨0, 0, 0⟩ = 0 := by
  simp [v3norm, v3dot]

theorem v3dot_of_norm_one {a : V3} (h : v3norm a = 1) : v3dot a a = 1 := by
  rw [← v3norm_sq, h, one_pow]

/-- Orthonormality invariant of the propagation loop (lines 317-342): with
unit tangents, a non-degenerate seed and every consecutive tangent pair
either exactly collinear or separated by more than machine epsilon, each
normal is a unit vector perpendicular to its tangent and each binormal is
the corresponding cross product. -/
theorem frenetNB_invariant (T : ℕ → V3) (m : ℕ)
    (hUnit : ∀ i ≤ m, v3dot (T i) (T i) = 1)
    (hSeed : v3cross (T 0) (frenetInitialNormal (T 0)) ≠ ⟨0, 0, 0⟩)
    (hStep : ∀ i < m, v3cross (T i) (T (i + 1)) = ⟨0, 0, 0⟩ ∨
      jsEpsilon < v3norm (v3cross (T i) (T (i + 1)))) :
    ∀ i ≤ m,
      v3dot (frenetNB T i).1 (frenetNB T i).1 = 1 ∧
      v3dot (T i) (frenetNB T i).1 = 0 ∧
      (frenetNB T i).2 = v3cross (T i) (frenetNB T i).1 := by
  intro i
  induction i with
  | zero =>
    intro hzm
    have ht0 : v3dot (T 0) (T 0) = 1 := hUnit 0 (by omega)
    have hvec : v3dot (v3normalize (v3cross (T 0) (frenetInitialNormal (T 0))))
        (v3normalize (v3cross (T 0) (frenetInitialNormal (T 0)))) = 1 :=
      v3normalize_self_dot hSeed
    have hperp : v3dot (T 0)
        (v3normalize (v3cross (T 0) (frenetInitialNormal (T 0)))) = 0 := by
      rw [v3normalize, v3dot_smul_right, v3dot_comm, v3dot_cross_left, mul_zero]
    refine ⟨?_, ?_, rfl⟩
    · show v3dot (v3cross (T 0) _) (v3cross (T 0) _) = 1
      rw [v3dot_cross_pair, ht0, hvec, hperp]
      ring
    · show v3dot (T 0) (v3cross (T 0) _) = 0
      rw [v3dot_comm]
      exact v3dot_cross_left _ _
  | succ i ih =>
    intro hsi
    obtain ⟨ihu, ihp, ihb⟩ := ih (by omega)
    have htI : v3dot (T i) (T i) = 1 := hUnit i (by omega)
    have htS : v3dot (T (i + 1)) (T (i + 1)) = 1 := hUnit (i + 1) hsi
    rcases hStep i (by omega) with hc | hgt
    · have hguard : ¬ jsEpsilon < v3norm (v3cross (T i) (T (i + 1))) := by
        rw [hc, v3norm_zero_vec]
        norm_num [jsEpsilon]
      have heq : frenetNB T (i + 1) =
          ((frenetNB T i).1, v3cross (T (i + 1)) (frenetNB T i).1) := by
        simp only [frenetNB]
        rw [if_neg hguard]
      rw [heq]
      exact ⟨ihu, cross_zero_perp (T i) (T (i + 1)) (frenetNB T i).1 htI hc ihp, rfl⟩
    · have hwne : v3cross (T i) (T (i + 1)) ≠ ⟨0, 0, 0⟩ := by
        intro h0
        rw [h0, v3norm_zero_vec] at hgt
        norm_num [jsEpsilon] at hgt
      have hlag : v3dot (v3cross (T i) (T (i + 1))) (v3cross (T i) (T (i + 1))) =
          1 - v3dot (T i) (T (i + 1)) * v3dot (T i) (T (i + 1)) := by
        rw [v3dot_cross_pair, htI, htS]
        ring
      have hwnn : 0 ≤ v3dot (v3cross (T i) (T (i + 1))) (v3cross (T i) (T (i + 1))) :=
        v3dot_self_nonneg _
      have hd1 : v3dot (T i) (T (i + 1)) ≤ 1 := by nlinarith
      have hdm1 : -1 ≤ v3dot (T i) (T (i + 1)) := by nlinarith
      have hclamp : clampR (v3dot (T i) (T (i + 1))) (-1) 1 = v3dot (T i) (T (i + 1)) := by
        rw [clampR, min_eq_right hd1, max_eq_right hdm1]
      have hcos : Real.cos (Real.arccos (clampR (v3dot (T i) (T (i + 1))) (-1) 1)) =
          v3dot (T i) (T (i + 1)) := by
        rw [hclamp]
        exact Real.cos_arccos hdm1 hd1
      have hsin : Real.sin (Real.arccos (clampR (v3dot (T i) (T (i + 1))) (-1) 1)) =
          v3norm (v3cross (T i) (T (i + 1))) := by
        rw [hclamp, Real.sin_arccos, v3norm]
        congr 1
        rw [hlag]
        ring
      have heq : frenetNB T (i + 1) =
          (rotAxis (v3normalize (v3cross (T i) (T (i + 1))))
             (Real.arccos (clampR (v3dot (T i) (T (i + 1))) (-1) 1)) (frenetNB T i).1,
           v3cross (T (i + 1))
             (rotAxis (v3normalize (v3cross (T i) (T (i + 1))))
               (Real.arccos (clampR (v3dot (T i) (T (i + 1))) (-1) 1)) (frenetNB T i).1)) := by
        simp only [frenetNB]
        rw [if_pos hgt]
      have haxis : v3dot (v3normalize (v3cross (T i) (T (i + 1))))
          (v3normalize (v3cross (T i) (T (i + 1)))) = 1 := v3normalize_self_dot hwne
      have hpres : ∀ u v : V3,
          v3dot (rotAxis (v3normalize (v3cross (T i) (T (i + 1))))
              (Real.arccos (clampR (v3dot (T i) (T (i + 1))) (-1) 1)) u)
            (rotAxis (v3normalize (v3cross (T i) (T (i + 1))))
              (Real.arccos (clampR (v3dot (T i) (T (i + 1))) (-1) 1)) v) = v3dot u v := by
        intro u v
        exact rotG_dot _ _ _ (Real.cos_sq_add_sin_sq _) haxis u v
      have htrans : rotAxis (v3normalize (v3cross (T i) (T (i + 1))))
          (Real.arccos (clampR (v3dot (T i) (T (i + 1))) (-1) 1)) (T i) = T (i + 1) := by
        rw [rotAxis, hcos, hsin]
        exact rotG_transport (T i) (T (i + 1)) htI hwne
      rw [heq]
      refine ⟨?_, ?_, rfl⟩
      · rw [hpres]
        exact ihu
      · have := hpres (T i) (frenetNB T i).1
        rw [htrans] at this
        rw [this]
        exact ihp

/-- The closed-curve correction (lines 344-362) preserves the
orthonormality invariant: it only rotates each normal about its own unit
tangent and recomputes the binormal. -/
theorem frenetCorrected_invariant (T : ℕ → V3) (m : ℕ) (closed : Bool)
    (hUnit : ∀ i ≤ m, v3dot (T i) (T i) = 1)
    (hSeed : v3cross (T 0) (frenetInitialNormal (T 0)) ≠ ⟨0, 0, 0⟩)
    (hStep : ∀ i < m, v3cross (T i) (T (i + 1)) = ⟨0, 0, 0⟩ ∨
      jsEpsilon < v3norm (v3cross (T i) (T (i + 1)))) :
    ∀ i ≤ m,
      v3dot (frenetCorrected T m closed i).1 (frenetCorrected T m closed i).1 = 1 ∧
      v3dot (T i) (frenetCorrected T m closed i).1 = 0 ∧
      (frenetCorrected T m closed i).2 = v3cross (T i) (frenetCorrected T m closed i).1 := by
  intro i hi
  obtain ⟨hu, hp, hb⟩ := frenetNB_invariant T m hUnit hSeed hStep i hi
  cases closed with
  | false => exact ⟨hu, hp, hb⟩
  | true =>
    by_cases hi0 : i = 0
    · subst hi0
      simpa only [frenetCorrected, if_pos rfl, if_true] using ⟨hu, hp, hb⟩
    · have htI : v3dot (T i) (T i) = 1 := hUnit i hi
      have heq : frenetCorrected T m true i =
          (rotAxis (T i)
            ((if 0 < v3dot (T 0) (v3cross (frenetNB T 0).1 (frenetNB T m).1) then
                -(Real.arccos (clampR (v3dot (frenetNB T 0).1 (frenetNB T m).1) (-1) 1) /
                  (m : ℝ))
              else
                Real.arccos (clampR (v3dot (frenetNB T 0).1 (frenetNB T m).1) (-1) 1) /
                  (m : ℝ)) * (i : ℝ)) (frenetNB T i).1,
           v3cross (T i)
             (rotAxis (T i)
               ((if 0 < v3dot (T 0) (v3cross (frenetNB T 0).1 (frenetNB T m).1) then
                    -(Real.arccos (clampR (v3dot (frenetNB T 0).1 (frenetNB T m).1) (-1) 1) /
                      (m : ℝ))
                  else
                    Real.arccos (clampR (v3dot (frenetNB T 0).1 (frenetNB T m).1) (-1) 1) /
                      (m : ℝ)) * (i : ℝ)) (frenetNB T i).1)) := by
        simp only [frenetCorrected, if_neg hi0, if_true]
      rw [heq]
      have hfix : rotAxis (T i)
          ((if 0 < v3dot (T 0) (v3cross (frenetNB T 0).1 (frenetNB T m).1) then
              -(Real.arccos (clampR (v3dot (frenetNB T 0).1 (frenetNB T m).1) (-1) 1) /
                (m : ℝ))
            else
              Real.arccos (clampR (v3dot (frenetNB T 0).1 (frenetNB T m).1) (-1) 1) /
                (m : ℝ)) * (i : ℝ)) (T i) = T i :=
        rotG_fixed_axis _ _ _ htI
      have hpres : ∀ u v : V3,
          v3dot (rotAxis (T i)
              ((if 0 < v3dot (T 0) (v3cross (frenetNB T 0).1 (frenetNB T m).1) then
                  -(Real.arccos (clampR (v3dot (frenetNB T 0).1 (frenetNB T m).1) (-1) 1) /
                    (m : ℝ))
                else
                  Real.arccos (clampR (v3dot (frenetNB T 0).1 (frenetNB T m).1) (-1) 1) /
                    (m : ℝ)) * (i : ℝ)) u)
            (rotAxis (T i)
              ((if 0 < v3dot (T 0) (v3cross (frenetNB T 0).1 (frenetNB T m).1) then
                  -(Real.arccos (clampR (v3dot (frenetNB T 0).1 (frenetNB T m).1) (-1) 1) /
                    (m : ℝ))
                else
                  Real.arccos (clampR (v3dot (frenetNB T 0).1 (frenetNB T m).1) (-1) 1) /
                    (m : ℝ)) * (i : ℝ)) v) = v3dot u v :=
        fun u v => rotG_dot _ _ _ (Real.cos_sq_add_sin_sq _) htI u v
      refine ⟨?_, ?_, rfl⟩
      · rw [hpres]
        exact hu
      · have := hpres (T i) (frenetNB T i).1
        rw [hfix] at this
        rw [this]
        exact hp

theorem triple_orthonormal (t n : V3) (ht : v3dot t t = 1) (hn : v3dot n n = 1)
    (hp : v3dot t n = 0) :
    v3norm t = 1 ∧ v3norm n = 1 ∧ v3norm (v3cross t n) = 1 ∧
    v3dot t n = 0 ∧ v3dot t (v3cross t n) = 0 ∧ v3dot n (v3cross t n) = 0 := by
  have hb : v3dot (v3cross t n) (v3cross t n) = 1 := by
    rw [v3dot_cross_pair, ht, hn, hp]
    ring
  refine ⟨?_, ?_, ?_, hp, ?_, ?_⟩
  · rw [v3norm, ht, Real.sqrt_one]
  · rw [v3norm, hn, Real.sqrt_one]
  · rw [v3norm, hb, Real.sqrt_one]
  · rw [v3dot_comm]
    exact v3dot_cross_left t n
  · rw [v3dot_comm]
    exact v3dot_cross_right t n

/-- C8: for every non-degenerate curve (unit tangent samples, non-degenerate
seed cross product, and each consecutive tangent pair either exactly
collinear or separated by more than machine epsilon) and positive segment
count, `computeFrenetFrames` returns three sequences of length
`segments + 1` whose entries at every index are mutually orthogonal unit
vectors. -/
theorem C8_frenet_orthonormal (c : Curve ℝ V3) (s : CurveState ℝ)
    (segments : ℕ) (closed : Bool) (hseg : 0 < segments)
    (hUnit : ∀ i ≤ segments, v3norm (frameTangent c s segments i) = 1)
    (hSeed : v3cross (frameTangent c s segments 0)
      (frenetInitialNormal (frameTangent c s segments 0)) ≠ ⟨0, 0, 0⟩)
    (hStep : ∀ i < segments,
      v3cross (frameTangent c s segments i) (frameTangent c s segments (i + 1)) =
        ⟨0, 0, 0⟩ ∨
      jsEpsilon < v3norm (v3cross (frameTangent c s segments i)
        (frameTangent c s segments (i + 1)))) :
    (computeFrenetFrames c s segments closed).1.tangents.length = segments + 1 ∧
    (computeFrenetFrames c s segments closed).1.normals.length = segments + 1 ∧
    (computeFrenetFrames c s segments closed).1.binormals.length = segments + 1 ∧
    ∀ i ≤ segments,
      v3norm ((computeFrenetFrames c s segments closed).1.tangents.getD i ⟨0, 0, 0⟩) = 1 ∧
      v3norm ((computeFrenetFrames c s segments closed).1.normals.getD i ⟨0, 0, 0⟩) = 1 ∧
      v3norm ((computeFrenetFrames c s segments closed).1.binormals.getD i ⟨0, 0, 0⟩) = 1 ∧
      v3dot ((computeFrenetFrames c s segments closed).1.tangents.getD i ⟨0, 0, 0⟩)
        ((computeFrenetFrames c s segments closed).1.normals.getD i ⟨0, 0, 0⟩) = 0 ∧
      v3dot ((computeFrenetFrames c s segments closed).1.tangents.getD i ⟨0, 0, 0⟩)
        ((computeFrenetFrames c s segments closed).1.binormals.getD i ⟨0, 0, 0⟩) = 0 ∧
      v3dot ((computeFrenetFrames c s segments closed).1.normals.getD i ⟨0, 0, 0⟩)
        ((computeFrenetFrames c s segments closed).1.binormals.getD i ⟨0, 0, 0⟩) = 0 := by
  have hT : ∀ i, i ≤ segments →
      (frenetTangents c s segments).1.getD i (⟨0, 0, 0⟩ : V3) =
        frameTangent c s segments i := by
    intro i hi
    rw [frenetTangents_eq]
    exact getD_map_range _ _ _ _ (by omega)
  have hUnit' : ∀ i ≤ segments,
      v3dot ((fun j => (frenetTangents c s segments).1.getD j (⟨0, 0, 0⟩ : V3)) i)
        ((fun j => (frenetTangents c s segments).1.getD j (⟨0, 0, 0⟩ : V3)) i) = 1 := by
    intro i hi
    simp only
    rw [hT i hi]
    exact v3dot_of_norm_one (hUnit i hi)
  have hSeed' : v3cross
      ((fun j => (frenetTangents c s segments).1.getD j (⟨0, 0, 0⟩ : V3)) 0)
      (frenetInitialNormal
        ((fun j => (frenetTangents c s segments).1.getD j (⟨0, 0, 0⟩ : V3)) 0)) ≠
      ⟨0, 0, 0⟩ := by
    simp only
    rw [hT 0 (by omega)]
    exact hSeed
  have hStep' : ∀ i < segments,
      v3cross ((fun j => (frenetTangents c s segments).1.getD j (⟨0, 0, 0⟩ : V3)) i)
          ((fun j => (frenetTangents c s segments).1.getD j (⟨0, 0, 0⟩ : V3)) (i + 1)) =
        ⟨0, 0, 0⟩ ∨
      jsEpsilon < v3norm
        (v3cross ((fun j => (frenetTangents c s segments).1.getD j (⟨0, 0, 0⟩ : V3)) i)
          ((fun j => (frenetTangents c s segments).1.getD j (⟨0, 0, 0⟩ : V3)) (i + 1))) := by
    intro i hi
    simp only
    rw [hT i (by omega), hT (i + 1) (by omega)]
    exact hStep i hi
  have hinv := frenetCorrected_invariant
    (fun j => (frenetTangents c s segments).1.getD j (⟨0, 0, 0⟩ : V3))
    segments closed hUnit' hSeed' hStep'
  have hlen1 : (computeFrenetFrames c s segments closed).1.tangents.length =
      segments + 1 := by
    show (frenetTangents c s segments).1.length = segments + 1
    rw [frenetTangents_eq]
    simp
  have hlen2 : (computeFrenetFrames c s segments closed).1.normals.length =
      segments + 1 := by
    show ((List.range (segments + 1)).map _).length = segments + 1
    simp
  have hlen3 : (computeFrenetFrames c s segments closed).1.binormals.length =
      segments + 1 := by
    show ((List.range (segments + 1)).map _).length = segments + 1
    simp
  refine ⟨hlen1, hlen2, hlen3, ?_⟩
  intro i hi
  have htan : (computeFrenetFrames c s segments closed).1.tangents.getD i (⟨0, 0, 0⟩ : V3) =
      (fun j => (frenetTangents c s segments).1.getD j (⟨0, 0, 0⟩ : V3)) i := rfl
  have hnor : (computeFrenetFrames c s segments closed).1.normals.getD i (⟨0, 0, 0⟩ : V3) =
      (frenetCorrected
        (fun j => (frenetTangents c s segments).1.getD j (⟨0, 0, 0⟩ : V3))
        segments closed i).1 := by
    show ((List.range (segments + 1)).map _).getD i _ = _
    exact getD_map_range _ _ _ _ (by omega)
  have hbin : (computeFrenetFrames c s segments closed).1.binormals.getD i (⟨0, 0, 0⟩ : V3) =
      (frenetCorrected
        (fun j => (frenetTangents c s segments).1.getD j (⟨0, 0, 0⟩ : V3))
        segments closed i).2 := by
    show ((List.range (segments + 1)).map _).getD i _ = _
    exact getD_map_range _ _ _ _ (by omega)
  obtain ⟨hu, hp, hb⟩ := hinv i hi
  obtain ⟨o1, o2, o3, o4, o5, o6⟩ := triple_orthonormal _ _ (hUnit' i hi) hu hp
  rw [htan, hnor, hbin, hb]
  exact ⟨o1, o2, o3, o4, o5, o6⟩

theorem v3sub_eq_zero {a b : V3} (h : v3sub a b = ⟨0, 0, 0⟩) : a = b := by
  obtain ⟨ax, ay, az⟩ := a
  obtain ⟨bx, by', bz⟩ := b
  simp only [v3sub, V3.mk.injEq] at h ⊢
  refine ⟨by linarith [h.1], by linarith [h.2.1], by linarith [h.2.2]⟩

theorem v3dot_zero_left (a : V3) : v3dot ⟨0, 0, 0⟩ a = 0 := by
  simp [v3dot]

theorem v3dot_cross_swap (a b c : V3) :
    v3dot (v3cross a b) c = -(v3dot (v3cross b a) c) := by
  simp only [v3dot, v3cross]; ring

/-- Core of the closed-curve seam correction: rotating `nS` about the common
unit tangent by an angle whose cosine is `n0 · nS` and whose sine `σ`
satisfies the sign condition the code tests lands exactly on `n0`. -/
theorem seam_rotation (t n0 nS : V3) (ht : v3dot t t = 1)
    (hn0 : v3dot n0 n0 = 1) (hnS : v3dot nS nS = 1)
    (h0 : v3dot t n0 = 0) (hS : v3dot t nS = 0) (σ : ℝ)
    (hσsq : σ ^ 2 = 1 - v3dot n0 nS ^ 2)
    (hσdir : σ * v3dot (v3cross t nS) n0 = 1 - v3dot n0 nS ^ 2) :
    rotG t (v3dot n0 nS) σ nS = n0 := by
  have hzero : v3dot (v3sub n0 (rotG t (v3dot n0 nS) σ nS))
      (v3sub n0 (rotG t (v3dot n0 nS) σ nS)) = 0 := by
    have hpair : v3dot (v3cross t nS) (v3cross t nS) =
        v3dot t t * v3dot nS nS - v3dot t nS * v3dot t nS := v3dot_cross_pair t nS nS
    rw [ht, hnS, hS] at hpair
    simp only [rotG, v3dot_sub_left, v3dot_sub_right, v3dot_add_left, v3dot_add_right,
      v3dot_smul_left, v3dot_smul_right]
    rw [hS]
    rw [v3dot_comm nS n0, v3dot_comm nS (v3cross t nS), v3dot_comm t (v3cross t nS),
      v3dot_comm n0 (v3cross t nS), v3dot_comm nS t, v3dot_comm n0 t]
    rw [v3dot_cross_right t nS, hpair, ht, hn0, hnS, h0, hS]
    linear_combination hσsq - 2 * hσdir
  exact (v3sub_eq_zero (v3dot_self_eq_zero hzero)).symm

/-- C9: for every closed, non-degenerate curve whose first and last tangent
samples coincide, the twist-corrected `normal[segments]` equals `normal[0]`
exactly, instead of differing by the raw pre-correction discrepancy. -/
theorem C9_closed_seam (c : Curve ℝ V3) (s : CurveState ℝ) (segments : ℕ)
    (hseg : 0 < segments)
    (hUnit : ∀ i ≤ segments, v3norm (frameTangent c s segments i) = 1)
    (hSeed : v3cross (frameTangent c s segments 0)
      (frenetInitialNormal (frameTangent c s segments 0)) ≠ ⟨0, 0, 0⟩)
    (hStep : ∀ i < segments,
      v3cross (frameTangent c s segments i) (frameTangent c s segments (i + 1)) =
        ⟨0, 0, 0⟩ ∨
      jsEpsilon < v3norm (v3cross (frameTangent c s segments i)
        (frameTangent c s segments (i + 1))))
    (hClosure : frameTangent c s segments segments = frameTangent c s segments 0) :
    (computeFrenetFrames c s segments true).1.normals.getD segments ⟨0, 0, 0⟩ =
      (computeFrenetFrames c s segments true).1.normals.getD 0 ⟨0, 0, 0⟩ := by
  set Tf : ℕ → V3 := fun j => (frenetTangents c s segments).1.getD j (⟨0, 0, 0⟩ : V3)
    with hTf
  have hT : ∀ i, i ≤ segments → Tf i = frameTangent c s segments i := by
    intro i hi
    rw [hTf]
    simp only
    rw [frenetTangents_eq]
    exact getD_map_range _ _ _ _ (by omega)
  have hUnit' : ∀ i ≤ segments, v3dot (Tf i) (Tf i) = 1 := by
    intro i hi
    rw [hT i hi]
    exact v3dot_of_norm_one (hUnit i hi)
  have hSeed' : v3cross (Tf 0) (frenetInitialNormal (Tf 0)) ≠ ⟨0, 0, 0⟩ := by
    rw [hT 0 (by omega)]
    exact hSeed
  have hStep' : ∀ i < segments, v3cross (Tf i) (Tf (i + 1)) = ⟨0, 0, 0⟩ ∨
      jsEpsilon < v3norm (v3cross (Tf i) (Tf (i + 1))) := by
    intro i hi
    rw [hT i (by omega), hT (i + 1) (by omega)]
    exact hStep i hi
  have hinv := frenetNB_invariant Tf segments hUnit' hSeed' hStep'
  obtain ⟨hn0u, hn0p, -⟩ := hinv 0 (by omega)
  obtain ⟨hnSu, hnSp, -⟩ := hinv segments le_rfl
  have hTT : Tf segments = Tf 0 := by
    rw [hT segments le_rfl, hT 0 (by omega)]
    exact hClosure
  have htm : v3dot (Tf segments) (Tf segments) = 1 := hUnit' segments le_rfl
  have hSm : v3dot (Tf segments) (frenetNB Tf segments).1 = 0 := hnSp
  have h0m : v3dot (Tf segments) (frenetNB Tf 0).1 = 0 := by
    rw [hTT]
    exact hn0p
  have hm0 : segments ≠ 0 := by omega
  have hms : ((segments : ℝ)) ≠ 0 := Nat.cast_ne_zero.mpr hm0
  -- bounds on the dot of the two boundary normals
  have hccp : v3dot (v3cross (frenetNB Tf 0).1 (frenetNB Tf segments).1)
      (v3cross (frenetNB Tf 0).1 (frenetNB Tf segments).1) =
      1 - v3dot (frenetNB Tf 0).1 (frenetNB Tf segments).1 ^ 2 := by
    rw [v3dot_cross_pair, hn0u, hnSu]
    ring
  have hccnn : 0 ≤ v3dot (v3cross (frenetNB Tf 0).1 (frenetNB Tf segments).1)
      (v3cross (frenetNB Tf 0).1 (frenetNB Tf segments).1) := v3dot_self_nonneg _
  have hd1 : v3dot (frenetNB Tf 0).1 (frenetNB Tf segments).1 ≤ 1 := by nlinarith
  have hdm1 : (-1 : ℝ) ≤ v3dot (frenetNB Tf 0).1 (frenetNB Tf segments).1 := by nlinarith
  have hccsq : (0 : ℝ) ≤ 1 - v3dot (frenetNB Tf 0).1 (frenetNB Tf segments).1 ^ 2 := by
    nlinarith
  have hclamp : clampR (v3dot (frenetNB Tf 0).1 (frenetNB Tf segments).1) (-1) 1 =
      v3dot (frenetNB Tf 0).1 (frenetNB Tf segments).1 := by
    rw [clampR, min_eq_right hd1, max_eq_right hdm1]
  -- the scalar component of nS × n0 along the tangent
  have hwt0 : v3cross (v3cross (frenetNB Tf segments).1 (frenetNB Tf 0).1)
      (Tf segments) = ⟨0, 0, 0⟩ := by
    rw [v3cross_cross_left, v3dot_comm (frenetNB Tf segments).1 (Tf segments),
      v3dot_comm (frenetNB Tf 0).1 (Tf segments), hSm, h0m, v3smul_zero, v3smul_zero]
    simp [v3sub]
  have hSsq : v3dot (v3cross (frenetNB Tf segments).1 (frenetNB Tf 0).1) (Tf segments) ^ 2 =
      1 - v3dot (frenetNB Tf 0).1 (frenetNB Tf segments).1 ^ 2 := by
    have hL := v3dot_cross_pair (v3cross (frenetNB Tf segments).1 (frenetNB Tf 0).1)
      (Tf segments) (Tf segments)
    rw [hwt0, v3dot_zero_left, htm] at hL
    have hww : v3dot (v3cross (frenetNB Tf segments).1 (frenetNB Tf 0).1)
        (v3cross (frenetNB Tf segments).1 (frenetNB Tf 0).1) =
        1 - v3dot (frenetNB Tf 0).1 (frenetNB Tf segments).1 ^ 2 := by
      rw [v3dot_cross_pair, hnSu, hn0u, v3dot_comm (frenetNB Tf segments).1 (frenetNB Tf 0).1]
      ring
    rw [hww] at hL
    linear_combination hL
  have hScyc : v3dot (v3cross (Tf segments) (frenetNB Tf segments).1) (frenetNB Tf 0).1 =
      v3dot (v3cross (frenetNB Tf segments).1 (frenetNB Tf 0).1) (Tf segments) :=
    v3dot_cross_cyclic _ _ _
  have hSD : v3dot (v3cross (frenetNB Tf segments).1 (frenetNB Tf 0).1) (Tf segments) =
      -(v3dot (Tf 0) (v3cross (frenetNB Tf 0).1 (frenetNB Tf segments).1)) := by
    rw [← hTT, v3dot_comm (Tf segments) (v3cross (frenetNB Tf 0).1 (frenetNB Tf segments).1),
      v3dot_cross_swap]
  have habs : Real.sqrt (1 - v3dot (frenetNB Tf 0).1 (frenetNB Tf segments).1 ^ 2) =
      |v3dot (v3cross (frenetNB Tf segments).1 (frenetNB Tf 0).1) (Tf segments)| := by
    rw [← hSsq, Real.sqrt_sq_eq_abs]
  -- reduce the goal to the corrected entry at `segments`
  have hnor0 : (computeFrenetFrames c s segments true).1.normals.getD 0 (⟨0, 0, 0⟩ : V3) =
      (frenetCorrected Tf segments true 0).1 := by
    show ((List.range (segments + 1)).map _).getD 0 _ = _
    exact getD_map_range _ _ _ _ (by omega)
  have hnorS : (computeFrenetFrames c s segments true).1.normals.getD segments
      (⟨0, 0, 0⟩ : V3) = (frenetCorrected Tf segments true segments).1 := by
    show ((List.range (segments + 1)).map _).getD segments _ = _
    exact getD_map_range _ _ _ _ (by omega)
  rw [hnor0, hnorS]
  have hcor0 : (frenetCorrected Tf segments true 0).1 = (frenetNB Tf 0).1 := by
    simp only [frenetCorrected, if_pos rfl, if_true]
  rw [hcor0]
  simp only [frenetCorrected, if_neg hm0, if_true]
  rw [hclamp]
  by_cases hD : 0 < v3dot (Tf 0) (v3cross (frenetNB Tf 0).1 (frenetNB Tf segments).1)
  · rw [if_pos hD]
    have hang : (-(Real.arccos (v3dot (frenetNB Tf 0).1 (frenetNB Tf segments).1) /
        (segments : ℝ))) * (segments : ℝ) =
        -(Real.arccos (v3dot (frenetNB Tf 0).1 (frenetNB Tf segments).1)) := by
      field_simp
    rw [hang, rotAxis, Real.cos_neg, Real.sin_neg, Real.cos_arccos hdm1 hd1,
      Real.sin_arccos]
    have hSneg : v3dot (v3cross (frenetNB Tf segments).1 (frenetNB Tf 0).1)
        (Tf segments) < 0 := by
      rw [hSD]
      linarith
    have hσdir : (-Real.sqrt (1 - v3dot (frenetNB Tf 0).1 (frenetNB Tf segments).1 ^ 2)) *
        v3dot (v3cross (Tf segments) (frenetNB Tf segments).1) (frenetNB Tf 0).1 =
        1 - v3dot (frenetNB Tf 0).1 (frenetNB Tf segments).1 ^ 2 := by
      rw [hScyc, habs, abs_of_neg hSneg]
      linear_combination hSsq
    exact seam_rotation (Tf segments) (frenetNB Tf 0).1 (frenetNB Tf segments).1
      htm hn0u hnSu h0m hSm _
      (by rw [neg_sq]
          exact Real.sq_sqrt hccsq)
      hσdir
  · rw [if_neg hD]
    have hang : (Real.arccos (v3dot (frenetNB Tf 0).1 (frenetNB Tf segments).1) /
        (segments : ℝ)) * (segments : ℝ) =
        Real.arccos (v3dot (frenetNB Tf 0).1 (frenetNB Tf segments).1) := by
      field_simp
    rw [hang, rotAxis, Real.cos_arccos hdm1 hd1, Real.sin_arccos]
    have hSnn : 0 ≤ v3dot (v3cross (frenetNB Tf segments).1 (frenetNB Tf 0).1)
        (Tf segments) := by
      rw [hSD]
      push_neg at hD
      linarith
    have hσdir : Real.sqrt (1 - v3dot (frenetNB Tf 0).1 (frenetNB Tf segments).1 ^ 2) *
        v3dot (v3cross (Tf segments) (frenetNB Tf segments).1) (frenetNB Tf 0).1 =
        1 - v3dot (frenetNB Tf 0).1 (frenetNB Tf segments).1 ^ 2 := by
      rw [hScyc, habs, abs_of_nonneg hSnn]
      linear_combination hSsq
    exact seam_rotation (Tf segments) (frenetNB Tf 0).1 (frenetNB Tf segments).1
      htm hn0u hnSu h0m hSm _
      (Real.sq_sqrt hccsq)
      hσdir

/-! ### A concrete 3D witness curve: the line `t ↦ (10t, 0, 0)` -/

/-- The straight 3D line used as the Frenet-frame witness. -/
noncomputable def line3 : Curve ℝ V3 := mkCurve3 (fun t => ⟨10 * t, 0, 0⟩)

/-- Real-scalar instance state configured with `__arcLengthDivisions = 1`. -/
def sOneR : CurveState ℝ := ⟨none, false, some 1⟩

theorem line3_segmentDist : segmentDist line3 1 0 = 10 := by
  simp only [segmentDist, line3, mkCurve3]
  norm_num [v3sub, v3norm, v3dot]
  rw [show (100 : ℝ) = 10 ^ 2 by norm_num]
  exact Real.sqrt_sq (by norm_num)

theorem line3_table : (getLengths line3 sOneR none).table = [0, 10] := by
  rw [getLengths_cache_none line3 sOneR none rfl]
  show arcLengthTable line3 1 = [0, 10]
  rw [arcLengthTable, show List.range 2 = [0, 1] from rfl]
  simp only [List.map_cons, List.map_nil]
  rw [show cumDist line3 1 0 = 0 from rfl,
    show cumDist line3 1 1 = segmentDist line3 1 0 by simp [cumDist],
    line3_segmentDist]

theorem line3_uSearch_zero : uSearch ([0, 10] : List ℝ) 0 0 1 = 0 := by
  rw [uSearch]
  norm_num [List.getD]

theorem line3_uSearch_ten : uSearch ([0, 10] : List ℝ) 10 0 1 = 1 := by
  rw [uSearch]
  norm_num [List.getD]
  rw [uSearch]
  norm_num [List.getD]

theorem line3_mapT_zero : mapTargetToT ([0, 10] : List ℝ) 0 = 0 := by
  rw [mapTargetToT]
  norm_num [line3_uSearch_zero, List.getD]

theorem line3_mapT_ten : mapTargetToT ([0, 10] : List ℝ) 10 = 1 := by
  rw [mapTargetToT]
  norm_num [line3_uSearch_ten, List.getD]

theorem v3normalize_pos_x {a : ℝ} (ha : 0 < a) :
    v3normalize ⟨a, 0, 0⟩ = ⟨1, 0, 0⟩ := by
  rw [v3normalize, v3norm]
  rw [show v3dot ⟨a, 0, 0⟩ ⟨a, 0, 0⟩ = a ^ 2 by simp [v3dot]; ring]
  rw [Real.sqrt_sq ha.le, v3smul]
  simp [V3.mk.injEq, inv_mul_cancel₀ (ne_of_gt ha)]

theorem line3_getTangent_zero : getTangent line3 0 = ⟨1, 0, 0⟩ := by
  simp only [getTangent, line3, mkCurve3]
  norm_num
  rw [show v3sub ⟨1 / 1000, 0, 0⟩ (⟨0, 0, 0⟩ : V3) = ⟨1 / 1000, 0, 0⟩ by
    simp [v3sub]]
  exact v3normalize_pos_x (by norm_num)

theorem line3_getTangent_one : getTangent line3 1 = ⟨1, 0, 0⟩ := by
  simp only [getTangent, line3, mkCurve3]
  norm_num
  rw [show v3sub ⟨10, 0, 0⟩ (⟨9999 / 1000, 0, 0⟩ : V3) = ⟨1 / 1000, 0, 0⟩ by
    simp only [v3sub, V3.mk.injEq]
    norm_num]
  exact v3normalize_pos_x (by norm_num)

theorem v3unit_x_dot : v3dot ⟨1, 0, 0⟩ (⟨1, 0, 0⟩ : V3) = 1 := by
  norm_num [v3dot]

theorem line3_frameTangent : ∀ i ≤ 1, frameTangent line3 sOneR 1 i = ⟨1, 0, 0⟩ := by
  intro i hi
  interval_cases i
  · rw [frameTangent, line3_table]
    norm_num [List.getD]
    rw [line3_mapT_zero, line3_getTangent_zero]
    exact v3normalize_of_unit v3unit_x_dot
  · rw [frameTangent, line3_table]
    norm_num [List.getD]
    rw [line3_mapT_ten, line3_getTangent_one]
    exact v3normalize_of_unit v3unit_x_dot

theorem line3_initialNormal : frenetInitialNormal ⟨1, 0, 0⟩ = ⟨0, 0, 1⟩ := by
  rw [frenetInitialNormal]
  norm_num

theorem line3_hUnit : ∀ i ≤ 1, v3norm (frameTangent line3 sOneR 1 i) = 1 := by
  intro i hi
  rw [line3_frameTangent i hi, v3norm, v3unit_x_dot, Real.sqrt_one]

theorem line3_hSeed : v3cross (frameTangent line3 sOneR 1 0)
    (frenetInitialNormal (frameTangent line3 sOneR 1 0)) ≠ ⟨0, 0, 0⟩ := by
  rw [line3_frameTangent 0 (by omega), line3_initialNormal]
  simp only [v3cross, V3.mk.injEq]
  norm_num

theorem line3_hStep : ∀ i < 1,
    v3cross (frameTangent line3 sOneR 1 i) (frameTangent line3 sOneR 1 (i + 1)) =
      ⟨0, 0, 0⟩ ∨
    jsEpsilon < v3norm (v3cross (frameTangent line3 sOneR 1 i)
      (frameTangent line3 sOneR 1 (i + 1))) := by
  intro i hi
  have hi0 : i = 0 := by omega
  subst hi0
  left
  rw [line3_frameTangent 0 (by omega), line3_frameTangent 1 (by omega)]
  simp [v3cross]

/-- Witness for C8 on the 3D line with one segment. -/
theorem C8_frenet_orthonormal_witness :
    (computeFrenetFrames line3 sOneR 1 false).1.tangents.length = 1 + 1 ∧
    (computeFrenetFrames line3 sOneR 1 false).1.normals.length = 1 + 1 ∧
    (computeFrenetFrames line3 sOneR 1 false).1.binormals.length = 1 + 1 ∧
    ∀ i ≤ 1,
      v3norm ((computeFrenetFrames line3 sOneR 1 false).1.tangents.getD i ⟨0, 0, 0⟩) = 1 ∧
      v3norm ((computeFrenetFrames line3 sOneR 1 false).1.normals.getD i ⟨0, 0, 0⟩) = 1 ∧
      v3norm ((computeFrenetFrames line3 sOneR 1 false).1.binormals.getD i ⟨0, 0, 0⟩) = 1 ∧
      v3dot ((computeFrenetFrames line3 sOneR 1 false).1.tangents.getD i ⟨0, 0, 0⟩)
        ((computeFrenetFrames line3 sOneR 1 false).1.normals.getD i ⟨0, 0, 0⟩) = 0 ∧
      v3dot ((computeFrenetFrames line3 sOneR 1 false).1.tangents.getD i ⟨0, 0, 0⟩)
        ((computeFrenetFrames line3 sOneR 1 false).1.binormals.getD i ⟨0, 0, 0⟩) = 0 ∧
      v3dot ((computeFrenetFrames line3 sOneR 1 false).1.normals.getD i ⟨0, 0, 0⟩)
        ((computeFrenetFrames line3 sOneR 1 false).1.binormals.getD i ⟨0, 0, 0⟩) = 0 :=
  C8_frenet_orthonormal line3 sOneR 1 false (by norm_num)
    line3_hUnit line3_hSeed line3_hStep

/-- Witness for C9 on the 3D line with one segment (its two tangent samples
coincide, so the closure hypothesis holds). -/
theorem C9_closed_seam_witness :
    (computeFrenetFrames line3 sOneR 1 true).1.normals.getD 1 ⟨0, 0, 0⟩ =
      (computeFrenetFrames line3 sOneR 1 true).1.normals.getD 0 ⟨0, 0, 0⟩ :=
  C9_closed_seam line3 sOneR 1 (by norm_num) line3_hUnit line3_hSeed line3_hStep
    (by rw [line3_frameTangent 1 (by omega), line3_frameTangent 0 (by omega)])

end PhaserCurve
